import Mathlib

/-!
Verification development for the O-T-FLY novel-reasoning repository.

Python strings are modelled as `List Char`; Python floats that the claims
touch are modelled as exact rationals (`ℚ`); fallible Python code is
modelled with `Option`/`Except`.  Each section names the source file and
function it embeds.
-/

set_option maxRecDepth 4000

namespace Arcft

/-- Python text is modelled as a list of characters. -/
abbrev PyStr := List Char

/-- Whitespace set of Python `str.strip` (space, tab, newline, carriage
return, vertical tab, form feed). -/
def isPyWs (c : Char) : Bool :=
  c = ' ' || c = '\t' || c = '\n' || c = '\r' || c = Char.ofNat 11 || c = Char.ofNat 12

/-- Drop trailing characters satisfying `isPyWs` (right half of `str.strip`). -/
def stripEnd : PyStr → PyStr
  | [] => []
  | c :: cs =>
    match stripEnd cs with
    | [] => if isPyWs c then [] else [c]
    | r => c :: r

/-- Python `str.strip()`. -/
def pyStrip (s : PyStr) : PyStr := stripEnd (s.dropWhile isPyWs)

/-- Python `str.split(sep)` for a single-character separator, specialised to
the newline splits used by the repository: `s.split('\n')`. -/
def splitLines : PyStr → List PyStr
  | [] => [[]]
  | c :: cs =>
    if c = '\n' then [] :: splitLines cs
    else
      match splitLines cs with
      | [] => [[c]]
      | l :: ls => (c :: l) :: ls

/-- Python `'\n'.join(parts)`. -/
def joinNl : List PyStr → PyStr
  | [] => []
  | [l] => l
  | l :: ls => l ++ '\n' :: joinNl ls

/-- Python `','.join(parts)`. -/
def joinComma : List PyStr → PyStr
  | [] => []
  | [l] => l
  | l :: ls => l ++ ',' :: joinComma ls

/-- Python `str.lower()` (ASCII case folding; the labels the repository
matches are all ASCII). -/
def toLowerPy (s : PyStr) : PyStr := s.map Char.toLower

/-- Python substring test `sub in s`. -/
def containsSub (s sub : PyStr) : Bool :=
  match s with
  | [] => sub.isPrefixOf []
  | _ :: cs => sub.isPrefixOf s || containsSub cs sub

/-- Python `s.split(':', 1)[1]`: the text after the first colon.  Every call
site in the repository first checks that the line contains a colon, so the
no-colon case (an `IndexError` in Python) is never reached; it is mapped to
the empty string here. -/
def afterFirstColon : PyStr → PyStr
  | [] => []
  | c :: cs => if c = ':' then cs else afterFirstColon cs

/-- Python `str.split()` with no argument: split on runs of whitespace and
drop empty tokens. -/
def pySplitWs : PyStr → List PyStr
  | [] => []
  | c :: cs =>
    if isPyWs c then pySplitWs cs
    else
      match cs with
      | [] => [[c]]
      | c2 :: _ =>
        if isPyWs c2 then [c] :: pySplitWs cs
        else
          match pySplitWs cs with
          | [] => [[c]]
          | t :: ts => (c :: t) :: ts

/-- Decimal digits of a natural number, fuel-based accumulator form (the
fuel exceeds the digit count whenever it exceeds the number itself). -/
def natCharsAux : Nat → Nat → List Char → List Char
  | 0, _, acc => acc
  | fuel + 1, n, acc =>
    if n < 10 then Nat.digitChar n :: acc
    else natCharsAux fuel (n / 10) (Nat.digitChar (n % 10) :: acc)

/-- Decimal digit string of a natural number (the digits of `str(n)`). -/
def natChars (n : Nat) : List Char := natCharsAux (n + 1) n []

/-- Python `str(n)` for an integer. -/
def intChars (n : Int) : PyStr :=
  if n < 0 then '-' :: natChars (-n).toNat else natChars n.toNat

/-- Consume a maximal run of ASCII decimal digits, returning the digits and
the remaining text. -/
def munchDigits : PyStr → (List Char × PyStr)
  | [] => ([], [])
  | c :: cs =>
    if c.isDigit then
      let (ds, r) := munchDigits cs
      (c :: ds, r)
    else ([], c :: cs)

/-- Numeric value of a list of ASCII digits. -/
def digitsVal (ds : List Char) : Nat :=
  ds.foldl (fun a c => a * 10 + (c.toNat - 48)) 0

/-- Python `float(s)` on the finite decimal numerals the repository feeds it:
optional sign, digits with an optional fraction, an optional exponent, and
surrounding whitespace.  Non-finite literals (`nan`, `inf`, `infinity`),
underscore separators and non-ASCII digits have no rational value and are
outside this model; theorems that rely on `pyFloat` carry hypotheses keeping
those inputs out. -/
def pyFloat (s0 : PyStr) : Option ℚ :=
  let s := pyStrip s0
  let (sgn, s1) : ℚ × PyStr :=
    match s with
    | '+' :: r => (1, r)
    | '-' :: r => (-1, r)
    | _ => (1, s)
  let (ids, s2) := munchDigits s1
  let (fds, s3) : List Char × PyStr :=
    match s2 with
    | '.' :: r => munchDigits r
    | _ => ([], s2)
  if ids.isEmpty && fds.isEmpty then none
  else
    let mant : ℚ := (digitsVal ids : ℚ) + (digitsVal fds : ℚ) / ((10 : ℚ) ^ fds.length)
    match s3 with
    | [] => some (sgn * mant)
    | 'e' :: r =>
      let (eneg, r1) : Bool × PyStr :=
        match r with
        | '+' :: rr => (false, rr)
        | '-' :: rr => (true, rr)
        | _ => (false, r)
      let (eds, r2) := munchDigits r1
      if eds.isEmpty then none
      else if r2.isEmpty then
        some (sgn * (if eneg then mant / ((10 : ℚ) ^ digitsVal eds) else mant * ((10 : ℚ) ^ digitsVal eds)))
      else none
    | 'E' :: r =>
      let (eneg, r1) : Bool × PyStr :=
        match r with
        | '+' :: rr => (false, rr)
        | '-' :: rr => (true, rr)
        | _ => (false, r)
      let (eds, r2) := munchDigits r1
      if eds.isEmpty then none
      else if r2.isEmpty then
        some (sgn * (if eneg then mant / ((10 : ℚ) ^ digitsVal eds) else mant * ((10 : ℚ) ^ digitsVal eds)))
      else none
    | _ => none

/-! ## Data model of `src/arcft/novel_reasoning.py` -/

/-- The `Rule` dataclass (lines 41-51). -/
structure Rule where
  rule_id : PyStr
  description : PyStr
  pattern : PyStr
  confidence : ℚ
  usage_count : Nat
  created_at : PyStr
  last_used : PyStr
  success_rate : ℚ
deriving DecidableEq

/-- The `ReasoningStep` dataclass (lines 31-39). -/
structure ReasoningStep where
  step_id : PyStr
  character : PyStr
  thought : PyStr
  hypothesis : Option PyStr := none
  confidence : ℚ := 0
  timestamp : PyStr := []
deriving DecidableEq

/-- The `DualAnswer` dataclass (lines 53-61). -/
structure DualAnswer where
  primary_answer : PyStr
  alternative_answer : PyStr
  primary_confidence : ℚ
  alternative_confidence : ℚ
  reasoning_comparison : PyStr
  recommended_answer : PyStr
deriving DecidableEq

/-! ## Rule grammar (`NovelReasoningEngine._parse_rules_from_response`, lines 302-337)

The Python `current_rule` dict is modelled as a record of optional fields:
a key is present exactly when the field is `some`.  `Rule(**current_rule)`
raises `TypeError` when a required key is missing; that failure is the
`Except.error` case. -/

/-- The in-progress `current_rule` dict of the rule grammar. -/
structure RuleDraft where
  rule_id : Option PyStr := none
  description : Option PyStr := none
  pattern : Option PyStr := none
  confidence : Option ℚ := none
  usage_count : Option Nat := none
  created_at : Option PyStr := none
  last_used : Option PyStr := none
  success_rate : Option ℚ := none
deriving DecidableEq

/-- The empty dict `{}`. -/
def RuleDraft.empty : RuleDraft := {}

/-- Python dict truthiness: `if current_rule:` is false exactly when no key
has ever been assigned. -/
def RuleDraft.nonempty (d : RuleDraft) : Bool :=
  d.rule_id.isSome || d.description.isSome || d.pattern.isSome || d.confidence.isSome ||
    d.usage_count.isSome || d.created_at.isSome || d.last_used.isSome || d.success_rate.isSome

/-- All eight keys of the dict are present. -/
def RuleDraft.complete (d : RuleDraft) : Bool :=
  d.rule_id.isSome && d.description.isSome && d.pattern.isSome && d.confidence.isSome &&
    d.usage_count.isSome && d.created_at.isSome && d.last_used.isSome && d.success_rate.isSome

/-- Python `Rule(**current_rule)`: succeeds only when all eight keys are
present (the dataclass has no defaults; a missing key raises `TypeError`). -/
def RuleDraft.toRule (d : RuleDraft) : Option Rule :=
  if d.complete then
    some ⟨d.rule_id.getD [], d.description.getD [], d.pattern.getD [], d.confidence.getD 0,
      d.usage_count.getD 0, d.created_at.getD [], d.last_used.getD [], d.success_rate.getD 0⟩
  else none

/-- Line startswith test for the four enumerated-list markers. -/
def isMarkerLine (l : PyStr) : Bool :=
  List.isPrefixOf "1.".toList l || List.isPrefixOf "2.".toList l ||
    List.isPrefixOf "3.".toList l || List.isPrefixOf "4.".toList l

/-- The fresh dict created at an enumerated marker (lines 313-322).  `k` is
`len(rules)` after the pending append; `ruleTs k` renders the
`datetime.now().strftime('%Y%m%d_%H%M%S')` sample taken for this rule. -/
def freshDraft (ruleTs : Nat → PyStr) (k : Nat) : RuleDraft where
  rule_id := some ("rule_".toList ++ natChars k ++ '_' :: ruleTs k)
  description := some []
  pattern := some []
  confidence := some 0.8
  usage_count := some 1
  created_at := some []
  last_used := some []
  success_rate := some 0.8

/-- The line loop of `_parse_rules_from_response`. -/
def parseRulesLines (ruleTs : Nat → PyStr) :
    List PyStr → List Rule → RuleDraft → Except Unit (List Rule)
  | [], rules, cur =>
    if cur.nonempty then
      match cur.toRule with
      | some r => .ok (rules ++ [r])
      | none => .error ()
    else .ok rules
  | l0 :: ls, rules, cur =>
    if isMarkerLine (pyStrip l0) then
      match (if cur.nonempty then (cur.toRule).map (fun r => rules ++ [r]) else some rules) with
      | none => .error ()
      | some rules2 => parseRulesLines ruleTs ls rules2 (freshDraft ruleTs rules2.length)
    else if containsSub (toLowerPy (pyStrip l0)) "description:".toList then
      parseRulesLines ruleTs ls rules
        { cur with description := some (pyStrip (afterFirstColon (pyStrip l0))) }
    else if containsSub (toLowerPy (pyStrip l0)) "pattern:".toList ||
        containsSub (toLowerPy (pyStrip l0)) "rule:".toList then
      parseRulesLines ruleTs ls rules
        { cur with pattern := some (pyStrip (afterFirstColon (pyStrip l0))) }
    else if containsSub (toLowerPy (pyStrip l0)) "confidence:".toList then
      match pyFloat (pyStrip (afterFirstColon (pyStrip l0))) with
      | some q => parseRulesLines ruleTs ls rules { cur with confidence := some q }
      | none => parseRulesLines ruleTs ls rules cur
    else parseRulesLines ruleTs ls rules cur

/-- `NovelReasoningEngine._parse_rules_from_response` (lines 302-337).
`Except.error ()` is the uncaught `TypeError` raised by
`Rule(**current_rule)` on an incomplete dict. -/
def parse_rules_from_response (ruleTs : Nat → PyStr) (response : PyStr) :
    Except Unit (List Rule) :=
  parseRulesLines ruleTs (splitLines response) [] RuleDraft.empty

/-! ## Dual-answer grammar (`_parse_dual_answers_from_response`, lines 443-485) -/

/-- The running defaults of the dual-answer grammar (lines 448-453). -/
def dualDefaults : DualAnswer where
  primary_answer := "Primary answer not found".toList
  alternative_answer := "Alternative answer not found".toList
  primary_confidence := 0.8
  alternative_confidence := 0.7
  reasoning_comparison := "Reasoning comparison not found".toList
  recommended_answer := "Recommended answer not found".toList

/-- One iteration of the dual-answer line loop (lines 455-476); `line` is
the stripped line `line.strip()` and each branch takes the trimmed text
after the first colon. -/
def dualLine (d : DualAnswer) (l0 : PyStr) : DualAnswer :=
  if containsSub (toLowerPy (pyStrip l0)) "primary answer:".toList then
    { d with primary_answer := pyStrip (afterFirstColon (pyStrip l0)) }
  else if containsSub (toLowerPy (pyStrip l0)) "alternative answer:".toList then
    { d with alternative_answer := pyStrip (afterFirstColon (pyStrip l0)) }
  else if containsSub (toLowerPy (pyStrip l0)) "primary confidence:".toList then
    match pyFloat (pyStrip (afterFirstColon (pyStrip l0))) with
    | some q => { d with primary_confidence := q }
    | none => d
  else if containsSub (toLowerPy (pyStrip l0)) "alternative confidence:".toList then
    match pyFloat (pyStrip (afterFirstColon (pyStrip l0))) with
    | some q => { d with alternative_confidence := q }
    | none => d
  else if containsSub (toLowerPy (pyStrip l0)) "reasoning comparison:".toList then
    { d with reasoning_comparison := pyStrip (afterFirstColon (pyStrip l0)) }
  else if containsSub (toLowerPy (pyStrip l0)) "recommended answer:".toList then
    { d with recommended_answer := pyStrip (afterFirstColon (pyStrip l0)) }
  else d

/-- `NovelReasoningEngine._parse_dual_answers_from_response` (lines 443-485). -/
def parse_dual_answers_from_response (response : PyStr) : DualAnswer :=
  (splitLines response).foldl dualLine dualDefaults

/-! ## Stage-3 split (`_simulate_future_answers`, lines 246-254) -/

/-- The post-completion processing of `_simulate_future_answers`: strip the
response, split into lines, and bisect by floor division of the line count. -/
def splitApproaches (response : PyStr) : PyStr × PyStr :=
  let content := pyStrip response
  let lines := splitLines content
  let mid := lines.length / 2
  (joinNl (lines.take mid), joinNl (lines.drop mid))

/-! ## Grid parsing (`src/arcft/scripts/evaluate_model.py`)

A grid is a list of rows of integers.  `json.loads` is modelled on the
sublanguage the evaluator exercises: possibly-nested integer arrays with
JSON whitespace.  JSON floats, booleans, strings, objects and `null` are
outside the model (a completion whose bracketed text carries such values is
not covered by the theorems below). -/

/-- Grids as in `arcft.dataset.Grid`. -/
abbrev Grid := List (List Int)

/-- Top-level JSON value of the modelled sublanguage: an integer, or an
array whose elements are integers or flat integer arrays. -/
inductive JTop where
  | int (n : Int)
  | arr (elems : List (Int ⊕ List Int))
deriving DecidableEq

/-- JSON whitespace. -/
def isJsonWs (c : Char) : Bool :=
  c = ' ' || c = '\t' || c = '\n' || c = '\r'

/-- Drop leading JSON whitespace. -/
def dropJWs (cs : PyStr) : PyStr := cs.dropWhile isJsonWs

/-- Parse an unsigned JSON integer literal: digits with no leading zeros. -/
def parseJIntCore (cs : PyStr) : Option (Nat × PyStr) :=
  if (munchDigits cs).1.isEmpty then none
  else if (munchDigits cs).1.length > 1 && (munchDigits cs).1.head? = some '0' then none
  else some (digitsVal (munchDigits cs).1, (munchDigits cs).2)

/-- Parse a JSON integer literal: optional minus, digits, no leading zeros. -/
def parseJInt (cs : PyStr) : Option (Int × PyStr) :=
  if cs.head? = some '-' then
    (parseJIntCore cs.tail).map (fun p => (-(p.1 : Int), p.2))
  else (parseJIntCore cs).map (fun p => ((p.1 : Int), p.2))

/-- Parse the comma-separated integers of a row, after the opening bracket
and at the first cell; consumes the closing bracket. -/
def parseCellsRest (fuel : Nat) (cs : PyStr) : Option (List Int × PyStr) :=
  match fuel with
  | 0 => none
  | fuel + 1 =>
    match parseJInt cs with
    | none => none
    | some (n, r) =>
      if (dropJWs r).head? = some ',' then
        match parseCellsRest fuel (dropJWs (dropJWs r).tail) with
        | some (l, rr) => some (n :: l, rr)
        | none => none
      else if (dropJWs r).head? = some ']' then some ([n], (dropJWs r).tail)
      else none

/-- Parse a row body (everything after its opening bracket). -/
def parseRowBody (fuel : Nat) (cs : PyStr) : Option (List Int × PyStr) :=
  if (dropJWs cs).head? = some ']' then some ([], (dropJWs cs).tail)
  else parseCellsRest fuel (dropJWs cs)

/-- Parse one element of the top-level array: an integer or a flat array. -/
def parseElemVal (fuel : Nat) (cs : PyStr) : Option ((Int ⊕ List Int) × PyStr) :=
  if cs.head? = some '[' then (parseRowBody fuel cs.tail).map (fun p => (Sum.inr p.1, p.2))
  else (parseJInt cs).map (fun p => (Sum.inl p.1, p.2))

/-- Parse the comma-separated elements of the top-level array, at the first
element; consumes the closing bracket. -/
def parseElemsRest (fuel : Nat) (cs : PyStr) : Option (List (Int ⊕ List Int) × PyStr) :=
  match fuel with
  | 0 => none
  | fuel + 1 =>
    match parseElemVal fuel cs with
    | none => none
    | some (e, r) =>
      if (dropJWs r).head? = some ',' then
        match parseElemsRest fuel (dropJWs (dropJWs r).tail) with
        | some (l, rr) => some (e :: l, rr)
        | none => none
      else if (dropJWs r).head? = some ']' then some ([e], (dropJWs r).tail)
      else none

/-- Parse the top-level array body (everything after its opening bracket). -/
def parseTopBody (fuel : Nat) (cs : PyStr) : Option (List (Int ⊕ List Int) × PyStr) :=
  if (dropJWs cs).head? = some ']' then some ([], (dropJWs cs).tail)
  else parseElemsRest fuel (dropJWs cs)

/-- Python `json.loads` on the modelled sublanguage; the whole text must be
consumed up to trailing whitespace. -/
def jsonLoads (text : PyStr) : Option JTop :=
  if (dropJWs text).head? = some '[' then
    match parseTopBody (text.length + 1) (dropJWs text).tail with
    | some (elems, rest) => if (dropJWs rest).isEmpty then some (.arr elems) else none
    | none => none
  else
    match parseJInt (dropJWs text) with
    | some (n, rest) => if (dropJWs rest).isEmpty then some (.int n) else none
    | none => none

/-- `_looks_like_grid` (lines 32-48): a non-empty list whose elements are
non-empty lists of equal length.  The `int(v)` coercion check is trivially
true on the modelled cells, which are already integers. -/
def looks_like_grid (t : JTop) : Bool :=
  match t with
  | .int _ => false
  | .arr elems =>
    if elems.isEmpty then false
    else if !(elems.all fun e => match e with | .inl _ => false | .inr r => !r.isEmpty) then false
    else
      let w := match elems.head? with
        | some (.inr r) => r.length
        | _ => 0
      elems.all fun e => match e with | .inl _ => false | .inr r => r.length = w

/-- Reading a loaded value back as a list of rows (the identity coercion
`[[int(v) for v in row] for row in obj]` on modelled cells). -/
def jtopToRows (t : JTop) : Option Grid :=
  match t with
  | .int _ => none
  | .arr elems => elems.mapM (fun e => match e with | .inl _ => none | .inr r => some r)

/-- One state-machine pass implementing `re.findall(r"\[.*?\]", text,
flags=re.DOTALL)`: each match runs from a `[` to the nearest following `]`,
and scanning resumes after the match. -/
def findBrackets : PyStr → Option PyStr → List PyStr
  | [], _ => []
  | c :: cs, none => if c = '[' then findBrackets cs (some [c]) else findBrackets cs none
  | c :: cs, some acc =>
    if c = ']' then (acc.reverse ++ [c]) :: findBrackets cs none
    else findBrackets cs (some (c :: acc))

/-- The bracketed candidate substrings of the fallback branch of
`parse_grid` (line 57). -/
def findBracketSubs (text : PyStr) : List PyStr := findBrackets text none

/-- `parse_grid` (lines 51-68): direct parse first; on failure, try each
bracketed candidate in order and accept the first that validates. -/
def parse_grid (text : PyStr) : Option Grid :=
  match jsonLoads text with
  | some obj => if looks_like_grid obj then jtopToRows obj else none
  | none =>
    ((findBracketSubs text).filterMap fun cand =>
      match jsonLoads cand with
      | some obj => if looks_like_grid obj then jtopToRows obj else none
      | none => none).head?

/-- Canonical serialization `json.dumps(g, separators=(",", ":"))` of a row. -/
def dumpsRow (r : List Int) : PyStr :=
  '[' :: (joinComma (r.map intChars) ++ [']'])

/-- Canonical serialization of a grid (the `key` function of the majority
vote, line 121-122). -/
def dumpsGrid (g : Grid) : PyStr :=
  '[' :: (joinComma (g.map dumpsRow) ++ [']'])

/-- Keys in first-encounter order, given the keys already seen. -/
def dedupFirstAux : List PyStr → List PyStr → List PyStr
  | [], _ => []
  | k :: ks, seen =>
    if k ∈ seen then dedupFirstAux ks seen else k :: dedupFirstAux ks (k :: seen)

/-- Iteration order of `Counter`: keys in first-encounter order. -/
def dedupFirst (keys : List PyStr) : List PyStr := dedupFirstAux keys []

/-- `Counter(keys).most_common(1)[0][0]`: a key of maximal multiplicity,
ties resolved to the first-encountered key. -/
def mostCommon1 (keys : List PyStr) : Option PyStr :=
  (dedupFirst keys).foldl (fun best k =>
    match best with
    | none => some k
    | some b => if keys.count k > keys.count b then some k else some b) none

/-- The per-item aggregation of `evaluate_model.main` (lines 117-127):
parse every sampled completion, majority-vote on the canonical
serialization, and re-load the winning key as the prediction. -/
def majority_pred (texts : List PyStr) : Option Grid :=
  let parsed := texts.filterMap parse_grid
  match parsed with
  | [] => none
  | _ =>
    match mostCommon1 (parsed.map dumpsGrid) with
    | some bk => (jsonLoads bk).bind jtopToRows
    | none => none

/-! ## ARC test runner (`arc_test_runner.py`) -/

/-- Token coercion of `parse_grid_response` (line 83):
`int(x) if x.isdigit() else 0`.  `Char.isDigit` models ASCII digits; the
non-ASCII digit classes Python `str.isdigit` also accepts are outside the
model. -/
def tokVal (t : PyStr) : Int :=
  if t.all Char.isDigit && !t.isEmpty then (digitsVal t : Int) else 0

/-- `ARCTestRunner.parse_grid_response` (lines 74-94). -/
def parse_grid_response (response : PyStr) : Option Grid :=
  let lines := splitLines (pyStrip response)
  let grid := lines.foldl (fun (g : Grid) line =>
    if (pyStrip line).isEmpty then g
    else
      let row := (pySplitWs line).map tokVal
      if row.isEmpty then g else g ++ [row]) []
  if !grid.isEmpty && grid.all (fun row => row.length > 0) then some grid else none

/-- Shape condition under which `np.array` yields a 2-D integer array with
an addressable `shape[1]`: a non-empty list of equal-length rows.  On any
other input the `try` block of `calculate_accuracy` raises and the function
returns `0.0`. -/
def okNumpy2d (g : Grid) : Bool :=
  !g.isEmpty && g.all (fun r => r.length = (g.head?.getD []).length)

/-- Cell of the zero-padded array: the original value inside the original
shape, the `np.zeros` background elsewhere. -/
def padCell (g : Grid) (i j : Nat) : Int :=
  ((g.get? i).bind fun r => r.get? j).getD 0

/-- Count of positions where the two padded arrays agree
(`np.sum(pred_padded == exp_padded)`). -/
def countMatches (p e : Grid) (rows cols : Nat) : Nat :=
  (List.range rows).foldl (fun a i =>
    a + ((List.range cols).foldl
      (fun b j => b + (if padCell p i j = padCell e i j then 1 else 0)) 0)) 0

/-- `ARCTestRunner.calculate_accuracy` (lines 96-122). -/
def calculate_accuracy (predicted expected : Grid) : ℚ :=
  if okNumpy2d predicted && okNumpy2d expected then
    let mr := max predicted.length expected.length
    let mc := max (predicted.head?.getD []).length (expected.head?.getD []).length
    let total := mr * mc
    if total > 0 then (countMatches predicted expected mr mc : ℚ) / (total : ℚ) else 0
  else 0

/-! ## Pipeline orchestrator (`NovelReasoningEngine`, lines 87-498)

The OpenAI chat call is the external text-completion collaborator: an
opaque function from (prompt, temperature, output ceiling) to a completion
text or a raised failure rendered by `str(e)`.  The wall clock is an opaque
stream `now : Nat → PyStr` sampled in call order; the `isoformat` and
`strftime` renderings of `datetime.now()` are both drawn from it. -/

/-- The external text-completion collaborator. -/
abbrev Collaborator := PyStr → ℚ → Nat → Except PyStr PyStr

/-- A `PhilosophicalCharacter` (lines 63-85), sans the cached prompt. -/
structure PhilosophicalCharacter where
  name : PyStr
  description : PyStr
  thinking_style : PyStr
  expertise : List PyStr
deriving DecidableEq

/-- Python `', '.join(parts)`. -/
def joinCommaSpace : List PyStr → PyStr
  | [] => []
  | [l] => l
  | l :: ls => l ++ ',' :: ' ' :: joinCommaSpace ls

/-- Python `',\n'.join(parts)`. -/
def joinCommaNl : List PyStr → PyStr
  | [] => []
  | [l] => l
  | l :: ls => l ++ ',' :: '\n' :: joinCommaNl ls

/-- `PhilosophicalCharacter._generate_personality_prompt` (lines 73-85). -/
def personality_prompt (ch : PhilosophicalCharacter) : PyStr :=
  "You are ".toList ++ ch.name ++ ", ".toList ++ ch.description ++
  ". \nYour thinking style: ".toList ++ ch.thinking_style ++
  "\nAreas of expertise: ".toList ++ joinCommaSpace ch.expertise ++
  "\n\nWhen approaching problems, you should:\n1. Think like ".toList ++ ch.name ++
  " would naturally think\n2. Apply your unique perspective and expertise\n3. Consider problems through your philosophical lens\n4. Generate hypotheses based on your worldview\n5. Express your thoughts in your characteristic manner\n\nRemember: You are not just simulating ".toList ++
  ch.name ++ ", you ARE ".toList ++ ch.name ++ " in this moment.".toList

/-- The character registry (lines 99-132), in dict insertion order. -/
def characters : List (PyStr × PhilosophicalCharacter) :=
  [("socrates".toList,
    ⟨"Socrates".toList,
     "Ancient Greek philosopher known for the Socratic method".toList,
     "Questioning, dialectical, seeking definitions and clarity through systematic inquiry".toList,
     ["logic", "ethics", "epistemology", "critical thinking", "questioning assumptions"].map String.toList⟩),
   ("aristotle".toList,
    ⟨"Aristotle".toList,
     "Ancient Greek philosopher and scientist, student of Plato".toList,
     "Systematic, empirical, categorizing, seeking causes and principles".toList,
     ["logic", "metaphysics", "ethics", "politics", "natural sciences", "categorization"].map String.toList⟩),
   ("descartes".toList,
    ⟨"Ren√© Descartes".toList,
     "French philosopher and mathematician, father of modern philosophy".toList,
     "Analytical, mathematical, systematic doubt, seeking certainty".toList,
     ["mathematics", "metaphysics", "epistemology", "methodology", "systematic reasoning"].map String.toList⟩),
   ("kant".toList,
    ⟨"Immanuel Kant".toList,
     "German philosopher, central figure in modern philosophy".toList,
     "Critical, systematic, seeking universal principles and conditions of possibility".toList,
     ["epistemology", "ethics", "metaphysics", "aesthetics", "transcendental philosophy"].map String.toList⟩),
   ("nietzsche".toList,
    ⟨"Friedrich Nietzsche".toList,
     "German philosopher, critic of traditional morality and religion".toList,
     "Perspectival, genealogical, questioning traditional values, creative destruction".toList,
     ["ethics", "aesthetics", "philosophy of history", "critique of morality", "creative thinking"].map String.toList⟩)]

/-- Lowercase hexadecimal digit. -/
def hexDigitChar (n : Nat) : Char :=
  if n < 10 then Nat.digitChar n else Char.ofNat (87 + n)

/-- Four lowercase hex digits of a code point below 0x10000. -/
def hex4 (n : Nat) : List Char :=
  [hexDigitChar (n / 4096 % 16), hexDigitChar (n / 256 % 16),
   hexDigitChar (n / 16 % 16), hexDigitChar (n % 16)]

/-- Escape of one character in a `json.dumps` string (default
`ensure_ascii`; astral code points, which Python escapes with surrogate
pairs, are mapped to a single four-digit escape — prompt text is consumed
only by the opaque collaborator). -/
def jsonEscapeChar (c : Char) : PyStr :=
  if c = '"' then ['\\', '"']
  else if c = '\\' then ['\\', '\\']
  else if c = '\n' then ['\\', 'n']
  else if c = '\t' then ['\\', 't']
  else if c = '\r' then ['\\', 'r']
  else if c.toNat = 8 then ['\\', 'b']
  else if c.toNat = 12 then ['\\', 'f']
  else if c.toNat < 32 || c.toNat > 126 then '\\' :: 'u' :: hex4 c.toNat
  else [c]

/-- A `json.dumps` string literal. -/
def jsonDumpsStr (s : PyStr) : PyStr :=
  '"' :: s.foldr (fun c acc => jsonEscapeChar c ++ acc) ['"']

/-- `json.dumps(d, indent=2)` for a dict of strings (the
`character_thoughts` mapping interpolated into prompts). -/
def jsonDumpsDict2 (d : List (PyStr × PyStr)) : PyStr :=
  match d with
  | [] => "\x7b\x7d".toList
  | _ =>
    "\x7b\n".toList ++
    joinCommaNl (d.map fun kv => "  ".toList ++ jsonDumpsStr kv.1 ++ ": ".toList ++ jsonDumpsStr kv.2) ++
    '\n' :: "\x7d".toList

/-- `_generate_character_thought` (lines 154-181). -/
def generate_character_thought (complete : Collaborator) (ch : PhilosophicalCharacter)
    (problem context : PyStr) : PyStr :=
  let prompt := personality_prompt ch ++ "\n\nPROBLEM TO ANALYZE:\n".toList ++ problem ++
    "\n\nCONTEXT (if any):\n".toList ++ context ++
    "\n\nBased on your philosophical perspective and expertise, analyze this problem. \nThink step by step, generate hypotheses, and express your reasoning.\n\nYour analysis:".toList
  match complete prompt 0.7 1000 with
  | .ok r => pyStrip r
  | .error e => "Error in ".toList ++ ch.name ++ "\x27s analysis: ".toList ++ e

/-- `_generate_hypothesis` (lines 183-213). -/
def generate_hypothesis (complete : Collaborator) (problem : PyStr)
    (thoughts : List (PyStr × PyStr)) : PyStr :=
  let summary := joinNl (thoughts.map fun kv => kv.1 ++ ": ".toList ++ kv.2)
  let prompt := "Based on the following philosophical perspectives on the problem, generate 3-5 specific hypotheses:\n\nPROBLEM: ".toList ++
    problem ++ "\n\nPHILOSOPHICAL PERSPECTIVES:\n".toList ++ summary ++
    "\n\nGenerate hypotheses that:\n1. Are specific and testable\n2. Consider multiple perspectives\n3. Build on the philosophical insights\n4. Could explain the observed patterns\n\nYour hypotheses:".toList
  match complete prompt 0.8 800 with
  | .ok r => pyStrip r
  | .error e => "Error generating hypotheses: ".toList ++ e

/-- `_simulate_future_answers` (lines 215-257). -/
def simulate_future_answers (complete : Collaborator) (problem hypotheses : PyStr)
    (thoughts : List (PyStr × PyStr)) : PyStr × PyStr :=
  let ctx := "\nPROBLEM: ".toList ++ problem ++ "\n\nHYPOTHESES: ".toList ++ hypotheses ++
    "\n\nPHILOSOPHICAL INSIGHTS: ".toList ++ jsonDumpsDict2 thoughts ++
    "\n\nGenerate TWO different approaches to solving this problem:\n\nAPPROACH 1: Use a systematic, analytical method\nAPPROACH 2: Use a creative, intuitive method\n\nFor each approach, provide:\n- Your reasoning process\n- The solution you arrive at\n- Your confidence level (0-1)\n- Why this approach might be better than the other\n\nFormat your response clearly separating the two approaches.".toList
  match complete ctx 0.9 1500 with
  | .ok r => splitApproaches r
  | .error e => ("Error in approach 1: ".toList ++ e, "Error in approach 2: ".toList ++ e)

/-- `_generate_dual_answers` (lines 396-441). -/
def generate_dual_answers (complete : Collaborator) (problem approach1 approach2 : PyStr)
    (thoughts : List (PyStr × PyStr)) : DualAnswer :=
  let prompt := "Based on the two approaches below, provide the final dual answers:\n\nPROBLEM: ".toList ++
    problem ++ "\n\nAPPROACH 1: ".toList ++ approach1 ++ "\n\nAPPROACH 2: ".toList ++ approach2 ++
    "\n\nPHILOSOPHICAL INSIGHTS: ".toList ++ jsonDumpsDict2 thoughts ++
    "\n\nProvide:\n1. PRIMARY ANSWER: The most likely correct solution\n2. ALTERNATIVE ANSWER: A different but plausible solution\n3. Confidence levels for each (0-1)\n4. Reasoning comparison explaining why you chose these answers\n5. RECOMMENDED ANSWER: Which one to use and why\n\nFormat your response clearly.".toList
  match complete prompt 0.7 1200 with
  | .ok r => parse_dual_answers_from_response (pyStrip r)
  | .error _ =>
    ⟨"Error generating primary answer".toList, "Error generating alternative answer".toList,
     0, 0, "Error in dual answer generation".toList, "Error".toList⟩

/-- `_abstract_rules` (lines 259-300).  Returns the stamped rules and the
clock index after the stage; the `TypeError` a malformed response provokes
in the rule grammar is caught by this stage's `try` and collapses to `[]`. -/
def abstract_rules (complete : Collaborator) (now : Nat → PyStr) (i : Nat)
    (problem solution : PyStr) (thoughts : List (PyStr × PyStr)) : List Rule × Nat :=
  let prompt := "Based on this problem-solving session, identify 2-4 general rules or patterns that could be applied to similar problems in the future.\n\nPROBLEM: ".toList ++
    problem ++ "\nSOLUTION: ".toList ++ solution ++ "\nTHOUGHT PROCESS: ".toList ++
    jsonDumpsDict2 thoughts ++
    "\n\nFor each rule, provide:\n1. A clear description of the pattern\n2. The specific pattern or rule\n3. Your confidence in this rule (0-1)\n4. When this rule would be applicable\n\nFormat as a structured list.".toList
  match complete prompt 0.6 1000 with
  | .error _ => ([], i)
  | .ok r =>
    match parse_rules_from_response (fun k => now (i + k)) (pyStrip r) with
    | .error _ => ([], i)
    | .ok rules =>
      let ts := now (i + rules.length)
      (rules.map fun ru =>
        { ru with created_at := ts, last_used := ts, usage_count := 1, success_rate := 0.8 },
       i + rules.length + 1)

/-- The engine's mutable state: the rule store and the reasoning history. -/
structure EngineState where
  rules : List Rule
  reasoning_history : List ReasoningStep
deriving DecidableEq

/-- Stage 1 of `solve_problem` (lines 344-358): one thought and one
recorded `ReasoningStep` per registered character, in registry order. -/
def runPerspectives (complete : Collaborator) (now : Nat → PyStr) (problem context : PyStr) :
    List (PyStr × PhilosophicalCharacter) → Nat → List ReasoningStep →
      List (PyStr × PyStr) × List ReasoningStep × Nat
  | [], i, hist => ([], hist, i)
  | (key, ch) :: rest, i, hist =>
    let thought := generate_character_thought complete ch problem context
    let step : ReasoningStep :=
      ⟨"step_".toList ++ natChars hist.length ++ '_' :: key, key, thought, none, 0, now i⟩
    let (ts, hist2, i2) := runPerspectives complete now problem context rest (i + 1) (hist ++ [step])
    ((key, thought) :: ts, hist2, i2)

/-- The run-result record returned by `solve_problem` (lines 381-391). -/
structure RunResult where
  problem : PyStr
  context : PyStr
  timestamp : PyStr
  character_thoughts : List (PyStr × PyStr)
  hypotheses : PyStr
  dual_answers : DualAnswer
  new_rules_learned : Nat
  total_rules : Nat
  reasoning_steps : Nat
deriving DecidableEq

/-- `NovelReasoningEngine.solve_problem` (lines 339-394).  The snapshot
write of `_save_rules` swallows its own failures; its payload is
`save_rules` of the updated store. -/
def solve_problem (complete : Collaborator) (now : Nat → PyStr)
    (problem context : PyStr) (st : EngineState) : RunResult × EngineState :=
  let (thoughts, hist2, i1) :=
    runPerspectives complete now problem context characters 0 st.reasoning_history
  let hypotheses := generate_hypothesis complete problem thoughts
  let (a1, a2) := simulate_future_answers complete problem hypotheses thoughts
  let dual := generate_dual_answers complete problem a1 a2 thoughts
  let (newRules, i2) := abstract_rules complete now i1 problem dual.recommended_answer thoughts
  let rules2 := st.rules ++ newRules
  let result : RunResult :=
    ⟨problem, context, now i2, thoughts, hypotheses, dual,
     newRules.length, rules2.length, hist2.length⟩
  (result, ⟨rules2, hist2⟩)

/-! ## Rule store persistence (`_load_existing_rules` / `_save_rules`,
lines 134-152)

The snapshot is modelled at the level of the structured values the `json`
module transports: a list of flat key/value records.  The stdlib
text encoding (`json.dump`/`json.load`) round-trips these values exactly
and is treated as the faithful external serializer of spec section 6. -/

/-- A value of a rule-snapshot record. -/
inductive JVal where
  | s (v : PyStr)
  | q (v : ℚ)
  | n (v : Nat)
deriving DecidableEq

/-- `dataclasses.asdict(rule)`: the eight fields in declaration order. -/
def asdictRule (r : Rule) : List (String × JVal) :=
  [("rule_id", .s r.rule_id), ("description", .s r.description), ("pattern", .s r.pattern),
   ("confidence", .q r.confidence), ("usage_count", .n r.usage_count),
   ("created_at", .s r.created_at), ("last_used", .s r.last_used),
   ("success_rate", .q r.success_rate)]

/-- `Rule(**d)` on a loaded snapshot record: the eight keys must be exactly
the dataclass fields (a missing or extra key raises `TypeError`; the
snapshots `_save_rules` writes carry them in declaration order). -/
def ruleOfDict (d : List (String × JVal)) : Option Rule :=
  match d with
  | [("rule_id", .s a), ("description", .s b), ("pattern", .s c),
     ("confidence", .q q), ("usage_count", .n u),
     ("created_at", .s ca), ("last_used", .s lu), ("success_rate", .q sr)] =>
    some ⟨a, b, c, q, u, ca, lu, sr⟩
  | _ => none

/-- `_save_rules` (lines 145-152): serialize the full in-memory list. -/
def save_rules (rules : List Rule) : List (List (String × JVal)) :=
  rules.map asdictRule

/-- `_load_existing_rules` (lines 134-143): a missing snapshot (`none`) or
any exception while decoding leaves the store empty. -/
def load_existing_rules (snapshot : Option (List (List (String × JVal)))) : List Rule :=
  match snapshot with
  | none => []
  | some data =>
    match data.mapM ruleOfDict with
    | some rs => rs
    | none => []

/-! ## Lemmas about the text model -/

theorem dropWhile_head_false {p : Char → Bool} :
    ∀ {l : PyStr} {x : Char} {t : PyStr}, l.dropWhile p = x :: t → p x = false := by
  intro l
  induction l with
  | nil => intro x t h; simp [List.dropWhile] at h
  | cons c cs ih =>
    intro x t h
    by_cases hc : p c
    · rw [List.dropWhile_cons, if_pos hc] at h
      exact ih h
    · rw [List.dropWhile_cons, if_neg hc] at h
      cases h
      simpa using hc

theorem dropWhile_eq_self {p : Char → Bool} {x : Char} {t : PyStr} (hx : p x = false) :
    (x :: t).dropWhile p = x :: t := by
  rw [List.dropWhile_cons, if_neg (by simp [hx])]

theorem stripEnd_getLast_false :
    ∀ {l : PyStr} {x : Char}, (stripEnd l).getLast? = some x → isPyWs x = false := by
  intro l
  induction l with
  | nil => intro x h; simp [stripEnd] at h
  | cons c cs ih =>
    intro x h
    rw [stripEnd] at h
    rcases he : stripEnd cs with _ | ⟨y, ys⟩
    · rw [he] at h
      by_cases hc : isPyWs c
      · simp [hc] at h
      · simp [hc] at h
        rw [← h]
        simpa using hc
    · rw [he] at h
      rw [List.getLast?_cons_cons] at h
      exact ih (he ▸ h)

theorem stripEnd_eq_self :
    ∀ {l : PyStr}, (∀ x, l.getLast? = some x → isPyWs x = false) → stripEnd l = l := by
  intro l
  induction l with
  | nil => intro _; rfl
  | cons c cs ih =>
    intro h
    rcases cs with _ | ⟨d, ds⟩
    · have hc : isPyWs c = false := h c rfl
      simp [stripEnd, hc]
    · have : stripEnd (d :: ds) = d :: ds := by
        apply ih
        intro x hx
        exact h x (by rw [List.getLast?_cons_cons]; exact hx)
      rw [stripEnd, this]

theorem stripEnd_cons_shape (c : Char) (cs : PyStr) :
    stripEnd (c :: cs) = [] ∨ ∃ t, stripEnd (c :: cs) = c :: t := by
  rw [stripEnd]
  rcases stripEnd cs with _ | ⟨y, ys⟩
  · by_cases hc : isPyWs c
    · left; simp [hc]
    · right; exact ⟨[], by simp [hc]⟩
  · right; exact ⟨y :: ys, rfl⟩

theorem pyStrip_head_false {l : PyStr} {x : Char} {t : PyStr}
    (h : pyStrip l = x :: t) : isPyWs x = false := by
  unfold pyStrip at h
  rcases hd : l.dropWhile isPyWs with _ | ⟨y, ys⟩
  · rw [hd] at h; simp [stripEnd] at h
  · rw [hd] at h
    have hy : isPyWs y = false := dropWhile_head_false hd
    rcases stripEnd_cons_shape y ys with h0 | ⟨t2, h2⟩
    · rw [h0] at h; cases h
    · rw [h2] at h
      cases h
      exact hy

theorem pyStrip_getLast_false {l : PyStr} {x : Char}
    (h : (pyStrip l).getLast? = some x) : isPyWs x = false :=
  stripEnd_getLast_false h

theorem pyStrip_eq_self {x : Char} {t : PyStr} (hx : isPyWs x = false)
    (hl : ∀ y, (x :: t).getLast? = some y → isPyWs y = false) :
    pyStrip (x :: t) = x :: t := by
  unfold pyStrip
  rw [dropWhile_eq_self hx]
  exact stripEnd_eq_self hl

theorem splitLines_ne_nil : ∀ (l : PyStr), splitLines l ≠ [] := by
  intro l
  cases l with
  | nil => simp [splitLines]
  | cons c cs =>
    rw [splitLines]
    by_cases hc : c = '\n'
    · simp [hc]
    · simp only [if_neg hc]
      rcases splitLines cs with _ | ⟨a, as⟩ <;> simp

theorem splitLines_cons_of_ne {x : Char} (cs : PyStr) (hx : x ≠ '\n') :
    ∃ t ls, splitLines (x :: cs) = (x :: t) :: ls ∧ splitLines cs = t :: ls := by
  rw [splitLines, if_neg hx]
  rcases he : splitLines cs with _ | ⟨a, as⟩
  · exact absurd he (splitLines_ne_nil cs)
  · exact ⟨a, as, rfl, rfl⟩

theorem splitLines_length_ge_two {c : PyStr} (h : '\n' ∈ c) :
    2 ≤ (splitLines c).length := by
  induction c with
  | nil => cases h
  | cons x cs ih =>
    by_cases hx : x = '\n'
    · subst hx
      rw [splitLines, if_pos rfl]
      have := splitLines_ne_nil cs
      have : 1 ≤ (splitLines cs).length := by
        cases he : splitLines cs with
        | nil => exact absurd he this
        | cons a as => simp
      simpa using this
    · have hmem : '\n' ∈ cs := by
        rcases List.mem_cons.mp h with h1 | h1
        · exact absurd h1.symm hx
        · exact h1
      obtain ⟨t, ls, he, he2⟩ := splitLines_cons_of_ne cs hx
      have := ih hmem
      rw [he2] at this
      rw [he]
      simpa using this

theorem splitLines_getLast_ne_nil :
    ∀ {c : PyStr}, c ≠ [] → (∀ y, c.getLast? = some y → y ≠ '\n') →
      ∀ {ll}, (splitLines c).getLast? = some ll → ll ≠ [] := by
  intro c
  induction c with
  | nil => intro h; exact absurd rfl h
  | cons x cs ih =>
    intro _ hy ll hll
    rcases cs with _ | ⟨d, ds⟩
    · have hx : x ≠ '\n' := hy x rfl
      obtain ⟨t, ls, he, he2⟩ := splitLines_cons_of_ne [] hx
      have ht : (t : PyStr) = [] ∧ ls = [] := by
        rw [splitLines] at he2
        cases he2
        exact ⟨rfl, rfl⟩
      rw [he, ht.1, ht.2] at hll
      simp at hll
      rw [← hll]
      simp
    · have hylast : ∀ y, (d :: ds).getLast? = some y → y ≠ '\n' := by
        intro y h
        exact hy y (by rw [List.getLast?_cons_cons]; exact h)
      by_cases hx : x = '\n'
      · subst hx
        rw [splitLines, if_pos rfl] at hll
        rcases he : splitLines (d :: ds) with _ | ⟨a, as⟩
        · exact absurd he (splitLines_ne_nil _)
        · rw [he, List.getLast?_cons_cons] at hll
          exact ih (by simp) hylast (he ▸ hll)
      · obtain ⟨t, ls, he, he2⟩ := splitLines_cons_of_ne (d :: ds) hx
        rw [he] at hll
        rcases ls with _ | ⟨b, bs⟩
        · simp at hll
          rw [← hll]
          simp
        · rw [List.getLast?_cons_cons] at hll
          have : (splitLines (d :: ds)).getLast? = some ll := by
            rw [he2, List.getLast?_cons_cons]
            exact hll
          exact ih (by simp) hylast this

theorem joinNl_cons_cons (l m : PyStr) (ms : List PyStr) :
    joinNl (l :: m :: ms) = l ++ '\n' :: joinNl (m :: ms) := rfl

theorem joinNl_eq_nil_iff : ∀ (ls : List PyStr), joinNl ls = [] ↔ ls = [] ∨ ls = [[]] := by
  intro ls
  rcases ls with _ | ⟨l, ls⟩
  · simp [joinNl]
  · rcases ls with _ | ⟨m, ms⟩
    · simp [joinNl]
    · rw [joinNl_cons_cons]
      simp

/-! ## Claim C3: the stage-3 line split -/

/-- Claim C3 counterexample: the response "x" is non-empty, yet the split
produces an empty first approach (one line, floor midpoint 0). -/
theorem c3_split_counterexample :
    ("x".toList : PyStr) ≠ [] ∧ (splitApproaches "x".toList).1 = [] := by
  constructor
  · decide
  · rfl

/-- Claim C3, amended: a whitespace-only response splits into two empty
strings; a response whose stripped text spans at least two lines (contains
a newline) splits into two non-empty approach strings.  A non-empty
single-line response yields an empty first approach, as the counterexample
shows. -/
theorem c3_split_amended (response : PyStr) :
    (pyStrip response = [] → splitApproaches response = ([], [])) ∧
    ('\n' ∈ pyStrip response →
      (splitApproaches response).1 ≠ [] ∧ (splitApproaches response).2 ≠ []) := by
  constructor
  · intro h
    unfold splitApproaches
    rw [h]
    rfl
  · intro hmem
    unfold splitApproaches
    rcases hc : pyStrip response with _ | ⟨x, t⟩
    · rw [hc] at hmem; cases hmem
    · rw [hc] at hmem
      have hx : isPyWs x = false := pyStrip_head_false hc
      have hxn : x ≠ '\n' := by
        intro h; rw [h] at hx; simp [isPyWs] at hx
      obtain ⟨t0, ls, he, _⟩ := splitLines_cons_of_ne t hxn
      have hlen : 2 ≤ (splitLines (x :: t)).length := splitLines_length_ge_two hmem
      set n := (splitLines (x :: t)).length with hn
      have hmid1 : 1 ≤ n / 2 := by omega
      have hmid2 : n / 2 < n := by omega
      constructor
      · -- first half starts with the (non-empty) first line
        simp only []
        obtain ⟨k, hk⟩ : ∃ k, n / 2 = k + 1 := ⟨n / 2 - 1, by omega⟩
        rw [hk, he, List.take_succ_cons]
        intro hnil
        rw [joinNl_eq_nil_iff] at hnil
        rcases hnil with h1 | h1
        · cases h1
        · simp at h1
      · -- second half ends with the (non-empty) last line
        simp only []
        have hlast : ∃ ll, (splitLines (x :: t)).getLast? = some ll ∧ ll ≠ [] := by
          have hne : splitLines (x :: t) ≠ [] := splitLines_ne_nil _
          rcases hg : (splitLines (x :: t)).getLast? with _ | ll
          · rw [List.getLast?_eq_none_iff] at hg
            exact absurd hg hne
          · refine ⟨ll, rfl, ?_⟩
            refine splitLines_getLast_ne_nil (by simp) ?_ hg
            intro y hy hcon
            have hws := pyStrip_getLast_false (x := y) (by rw [hc]; exact hy)
            rw [hcon] at hws
            simp [isPyWs] at hws
        obtain ⟨ll, hg, hlne⟩ := hlast
        have hdrop : ((splitLines (x :: t)).drop (n / 2)).getLast? = some ll := by
          rw [List.getLast?_drop, if_neg (by omega)]
          exact hg
        have hdne : (splitLines (x :: t)).drop (n / 2) ≠ [] := by
          intro h0
          rw [h0] at hdrop
          cases hdrop
        intro hnil
        rw [joinNl_eq_nil_iff] at hnil
        rcases hnil with h1 | h1
        · exact hdne h1
        · rw [h1] at hdrop
          simp at hdrop
          exact hlne hdrop

/-- Claim C3 witness: a three-line response splits into two non-empty
approaches. -/
theorem c3_split_witness :
    (splitApproaches "a\nx\nb".toList).1 ≠ [] ∧ (splitApproaches "a\nx\nb".toList).2 ≠ [] :=
  (c3_split_amended "a\nx\nb".toList).2 (by decide)

/-! ## Claim C10: the ARC runner response parser -/

/-- Inputs on which the ASCII digit model of `tokVal` coincides with
Python (`str.isdigit` and `int` agree with the model on ASCII text). -/
def allAscii (s : PyStr) : Bool := s.all (fun c => c.toNat < 128)

/-- Claim C10: on ASCII text the runner parser is total, returning `none`
or a non-empty grid of non-empty rows; digit-only tokens become their
value, any other token (negative numbers, words) becomes `0`; rows of
unequal length are kept, so the grid may be ragged. -/
theorem grid_guard_shape (grid : Grid) :
    (if !grid.isEmpty && grid.all (fun row => row.length > 0) then some grid else none) = none ∨
      ∃ g, (if !grid.isEmpty && grid.all (fun row => row.length > 0) then some grid else none) = some g ∧
        g ≠ [] ∧ ∀ r ∈ g, r ≠ [] := by
  by_cases h : (!grid.isEmpty && grid.all (fun row => row.length > 0)) = true
  · right
    refine ⟨grid, if_pos h, ?_, ?_⟩
    · rcases Bool.and_eq_true .. |>.mp h with ⟨h1, _⟩
      intro h0
      rw [h0] at h1
      simp at h1
    · rcases Bool.and_eq_true .. |>.mp h with ⟨_, h2⟩
      intro r hr h0
      have := List.all_eq_true.mp h2 r hr
      rw [h0] at this
      simp at this
  · left
    exact if_neg h

theorem c10_parse_grid_response_total :
    (∀ s : PyStr, allAscii s = true →
      parse_grid_response s = none ∨
        ∃ g, parse_grid_response s = some g ∧ g ≠ [] ∧ ∀ r ∈ g, r ≠ []) ∧
    parse_grid_response "1 2\n-1 foo".toList = some [[1, 2], [0, 0]] ∧
    parse_grid_response "1 2\n3".toList = some [[1, 2], [3]] := by
  refine ⟨?_, by decide, by decide⟩
  intro s _
  exact grid_guard_shape _

/-- Claim C10 witness: instantiation of the universal part at an ASCII
response that parses. -/
theorem c10_parse_grid_response_witness :
    parse_grid_response "1 2".toList = none ∨
      ∃ g, parse_grid_response "1 2".toList = some g ∧ g ≠ [] ∧ ∀ r ∈ g, r ≠ [] :=
  c10_parse_grid_response_total.1 "1 2".toList (by decide)

/-! ## Claim C6: padded accuracy -/

/-- Matching positions of the two padded arrays, as a set. -/
def matchSet (p e : Grid) (rows cols : Nat) : Finset (Fin rows × Fin cols) :=
  Finset.univ.filter fun ij => padCell p ij.1 ij.2 = padCell e ij.1 ij.2

theorem range_foldl_add (f : Nat → Nat) :
    ∀ (n : Nat) (a : Nat), (List.range n).foldl (fun b i => b + f i) a = a + ∑ i ∈ Finset.range n, f i := by
  intro n
  induction n with
  | zero => intro a; simp
  | succ n ih =>
    intro a
    rw [List.range_succ, List.foldl_append, Finset.sum_range_succ, ih]
    simp [Nat.add_assoc]

theorem countMatches_eq_card (p e : Grid) (rows cols : Nat) :
    countMatches p e rows cols = (matchSet p e rows cols).card := by
  unfold countMatches matchSet
  rw [Finset.card_filter]
  rw [Fintype.sum_prod_type]
  rw [range_foldl_add (fun i => (List.range cols).foldl
    (fun b j => b + (if padCell p i j = padCell e i j then 1 else 0)) 0) rows 0]
  rw [Nat.zero_add]
  rw [← Fin.sum_univ_eq_sum_range]
  refine Finset.sum_congr rfl ?_
  intro i _
  rw [range_foldl_add (fun j => if padCell p i j = padCell e i j then 1 else 0) cols 0]
  rw [Nat.zero_add]
  rw [← Fin.sum_univ_eq_sum_range]

/-- Claim C6: on inputs `np.array` accepts as 2-D arrays (non-empty,
rectangular), the score is the number of positions where the two
zero-padded arrays agree divided by the padded area, the padded shape
being the element-wise maximum of the two shapes; in particular the
spec's concrete case scores exactly one half. -/
theorem c6_calculate_accuracy_padded :
    (∀ p e : Grid, okNumpy2d p = true → okNumpy2d e = true →
      calculate_accuracy p e =
        ((matchSet p e (max p.length e.length)
            (max (p.head?.getD []).length (e.head?.getD []).length)).card : ℚ) /
          ((max p.length e.length) * (max (p.head?.getD []).length (e.head?.getD []).length)) ) ∧
    calculate_accuracy [[1, 2]] [[1, 2], [3, 4]] = 1 / 2 := by
  constructor
  · intro p e hp he
    unfold calculate_accuracy
    rw [if_pos (by rw [hp, he]; rfl)]
    set mr := max p.length e.length
    set mc := max (p.head?.getD []).length (e.head?.getD []).length
    by_cases h : mr * mc > 0
    · rw [if_pos h, countMatches_eq_card]
      norm_num
    · rw [if_neg h]
      have : (mr : ℚ) * (mc : ℚ) = ((mr * mc : Nat) : ℚ) := by push_cast; ring
      have hz : mr * mc = 0 := by omega
      rw [this, hz]
      simp
  · have hc2 : countMatches [[1, 2]] [[1, 2], [3, 4]] 2 2 = 2 := by decide
    unfold calculate_accuracy
    norm_num [hc2]
    exact ⟨by decide, by decide⟩

/-- Claim C6 witness: the concrete spec case through the universal part. -/
theorem c6_calculate_accuracy_witness :
    calculate_accuracy [[1, 2]] [[1, 2], [3, 4]] =
      ((matchSet [[1, 2]] [[1, 2], [3, 4]] 2 2).card : ℚ) / (2 * 2) :=
  c6_calculate_accuracy_padded.1 [[1, 2]] [[1, 2], [3, 4]] (by decide) (by decide)

/-! ## Claim C9: rule-store persistence round-trip -/

theorem ruleOfDict_asdict (r : Rule) : ruleOfDict (asdictRule r) = some r := rfl

theorem mapM_ruleOfDict_save : ∀ (rules : List Rule),
    (save_rules rules).mapM ruleOfDict = some rules := by
  intro rules
  induction rules with
  | nil => rfl
  | cons r rs ih =>
    unfold save_rules at ih ⊢
    rw [List.map_cons, List.mapM_cons, ruleOfDict_asdict, ih]
    rfl

/-- Claim C9: persisting a rule list with `_save_rules` and loading the
snapshot in a fresh store with `_load_existing_rules` reproduces the list
element-wise. -/
theorem c9_rule_store_roundtrip (rules : List Rule) :
    load_existing_rules (some (save_rules rules)) = rules := by
  show (match (save_rules rules).mapM ruleOfDict with | some rs => rs | none => ([] : List Rule)) = rules
  rw [mapM_ruleOfDict_save]

/-! ## Claim C8: the dual-answer grammar -/

theorem isPrefixOf_append_self : ∀ (l t : PyStr), List.isPrefixOf l (l ++ t) = true := by
  intro l t
  induction l with
  | nil => simp
  | cons c cs ih => simp [List.isPrefixOf, ih]

theorem containsSub_of_isPrefixOf {s sub : PyStr} (h : List.isPrefixOf sub s = true) :
    containsSub s sub = true := by
  cases s with
  | nil => exact h
  | cons c cs => simp [containsSub, h]

theorem splitLines_no_newline : ∀ {a : PyStr}, '\n' ∉ a → splitLines a = [a] := by
  intro a
  induction a with
  | nil => intro _; rfl
  | cons x xs ih =>
    intro h
    have hx : x ≠ '\n' := fun hc => h (hc ▸ List.mem_cons_self x xs)
    have hxs : '\n' ∉ xs := fun hc => h (List.mem_cons_of_mem x hc)
    obtain ⟨t, ls, he, he2⟩ := splitLines_cons_of_ne xs hx
    rw [ih hxs] at he2
    cases he2
    exact he

theorem splitLines_append {a : PyStr} (b : PyStr) (ha : '\n' ∉ a) :
    splitLines (a ++ '\n' :: b) = a :: splitLines b := by
  induction a with
  | nil =>
    show splitLines ('\n' :: b) = [] :: splitLines b
    rw [splitLines, if_pos rfl]
  | cons x xs ih =>
    have hx : x ≠ '\n' := fun hc => ha (hc ▸ List.mem_cons_self x xs)
    have hxs : '\n' ∉ xs := fun hc => ha (List.mem_cons_of_mem x hc)
    obtain ⟨t, ls, he, he2⟩ := splitLines_cons_of_ne (xs ++ '\n' :: b) hx
    rw [ih hxs] at he2
    cases he2
    rw [List.cons_append, he]

theorem afterFirstColon_append : ∀ {a : PyStr} (b : PyStr), ':' ∉ a →
    afterFirstColon (a ++ ':' :: b) = b := by
  intro a
  induction a with
  | nil =>
    intro b _
    show afterFirstColon (':' :: b) = b
    rw [afterFirstColon, if_pos rfl]
  | cons x xs ih =>
    intro b h
    have hx : x ≠ ':' := fun hc => h (hc ▸ List.mem_cons_self x xs)
    have hxs : ':' ∉ xs := fun hc => h (List.mem_cons_of_mem x hc)
    rw [List.cons_append, afterFirstColon, if_neg hx]
    exact ih b hxs

theorem pyStrip_cons_ws {X : PyStr} {c : Char} (hc : isPyWs c = true) :
    pyStrip (c :: X) = pyStrip X := by
  unfold pyStrip
  rw [List.dropWhile_cons, if_pos hc]

theorem pyStrip_getLast_of_self {X : PyStr} (hstr : pyStrip X = X) :
    ∀ y, X.getLast? = some y → isPyWs y = false := by
  intro y hy
  exact pyStrip_getLast_false (x := y) (by rw [hstr]; exact hy)

/-- Strip is the identity on a label line `pre ++ X` whose head is a
non-whitespace literal character and whose tail is an already-stripped,
non-empty `X`. -/
theorem pyStrip_label_line {X : PyStr} (p : Char) (pre : PyStr)
    (hp : isPyWs p = false) (hne : X ≠ []) (hstr : pyStrip X = X) :
    pyStrip (p :: pre ++ X) = p :: pre ++ X := by
  apply pyStrip_eq_self hp
  intro y hy
  apply pyStrip_getLast_of_self hstr
  have hx : ((p :: pre) ++ X).getLast? = X.getLast? :=
    List.getLast?_append_of_ne_nil _ hne
  rw [← hx]
  exact hy

/-- Claim C8: on a response whose only labeled lines are
`primary answer: X` and `recommended answer: X` (for a stripped,
single-line `X` that embeds no other field label), the parser fills
`primary_answer` and `recommended_answer` with `X` and leaves every other
field at its documented default. -/
theorem c8_dual_answer_grammar (X : PyStr)
    (hne : X ≠ []) (hstr : pyStrip X = X) (hnl : '\n' ∉ X)
    (hlab : ∀ lab ∈ ([
        "primary answer:".toList, "alternative answer:".toList,
        "primary confidence:".toList, "alternative confidence:".toList,
        "reasoning comparison:".toList] : List PyStr),
      containsSub (toLowerPy ("recommended answer: ".toList ++ X)) lab = false) :
    parse_dual_answers_from_response
        (("primary answer: ".toList ++ X) ++ '\n' :: ("recommended answer: ".toList ++ X)) =
      ⟨X, "Alternative answer not found".toList, 0.8, 0.7,
       "Reasoning comparison not found".toList, X⟩ := by
  have hnl1 : '\n' ∉ "primary answer: ".toList ++ X := by
    intro h
    rcases List.mem_append.mp h with h | h
    · revert h; decide
    · exact hnl h
  have hnl2 : '\n' ∉ "recommended answer: ".toList ++ X := by
    intro h
    rcases List.mem_append.mp h with h | h
    · revert h; decide
    · exact hnl h
  unfold parse_dual_answers_from_response
  rw [splitLines_append _ hnl1, splitLines_no_newline hnl2]
  rw [List.foldl_cons, List.foldl_cons, List.foldl_nil]
  have hstrip1 : pyStrip ("primary answer: ".toList ++ X) = "primary answer: ".toList ++ X :=
    pyStrip_label_line 'p' "rimary answer: ".toList (by decide) hne hstr
  have hstrip2 : pyStrip ("recommended answer: ".toList ++ X) = "recommended answer: ".toList ++ X :=
    pyStrip_label_line 'r' "ecommended answer: ".toList (by decide) hne hstr
  have hlow1 : toLowerPy ("primary answer: ".toList ++ X) =
      "primary answer:".toList ++ (' ' :: toLowerPy X) := by
    unfold toLowerPy
    rw [List.map_append]
    rfl
  have hlow2 : toLowerPy ("recommended answer: ".toList ++ X) =
      "recommended answer:".toList ++ (' ' :: toLowerPy X) := by
    unfold toLowerPy
    rw [List.map_append]
    rfl
  have hcol1 : pyStrip (afterFirstColon ("primary answer: ".toList ++ X)) = X := by
    have he : "primary answer: ".toList ++ X = "primary answer".toList ++ ':' :: (' ' :: X) := rfl
    rw [he, afterFirstColon_append _ (by decide), pyStrip_cons_ws (by decide), hstr]
  have hcol2 : pyStrip (afterFirstColon ("recommended answer: ".toList ++ X)) = X := by
    have he : "recommended answer: ".toList ++ X = "recommended answer".toList ++ ':' :: (' ' :: X) := rfl
    rw [he, afterFirstColon_append _ (by decide), pyStrip_cons_ws (by decide), hstr]
  have hd1 : dualLine dualDefaults ("primary answer: ".toList ++ X) =
      { dualDefaults with primary_answer := X } := by
    unfold dualLine
    rw [hstrip1, hlow1]
    rw [if_pos (containsSub_of_isPrefixOf (isPrefixOf_append_self _ _))]
    rw [hcol1]
  rw [hd1]
  unfold dualLine
  rw [hstrip2, hlow2]
  have hlab2 : ∀ lab ∈ ([
      "primary answer:".toList, "alternative answer:".toList,
      "primary confidence:".toList, "alternative confidence:".toList,
      "reasoning comparison:".toList] : List PyStr),
      ¬ (containsSub ("recommended answer:".toList ++ (' ' :: toLowerPy X)) lab = true) := by
    intro lab hmem
    rw [← hlow2]
    simp only [Bool.not_eq_true]
    exact hlab lab hmem
  rw [if_neg (hlab2 _ (by simp)),
    if_neg (hlab2 _ (by simp)),
    if_neg (hlab2 _ (by simp)),
    if_neg (hlab2 _ (by simp)),
    if_neg (hlab2 _ (by simp)),
    if_pos (containsSub_of_isPrefixOf (isPrefixOf_append_self _ _))]
  rw [hcol2]
  rfl

/-- Claim C8 witness: the theorem at the concrete text of the spec's
example, `X` literally the string "X". -/
theorem c8_dual_answer_witness :
    parse_dual_answers_from_response
        (("primary answer: ".toList ++ "X".toList) ++ '\n' ::
          ("recommended answer: ".toList ++ "X".toList)) =
      ⟨"X".toList, "Alternative answer not found".toList, 0.8, 0.7,
       "Reasoning comparison not found".toList, "X".toList⟩ :=
  c8_dual_answer_grammar "X".toList (by decide) (by decide) (by decide) (by decide)

/-! ## Claims C2 and C4: the rule grammar -/

/-- A stripped line that hits one of the field-label branches of the rule
grammar. -/
def isRuleLabelLine (line : PyStr) : Bool :=
  containsSub (toLowerPy line) "description:".toList ||
    containsSub (toLowerPy line) "pattern:".toList ||
    containsSub (toLowerPy line) "rule:".toList ||
    containsSub (toLowerPy line) "confidence:".toList

/-- Every field-label line is preceded by some enumerated marker line
(`seen` records whether a marker has occurred yet). -/
def labelsAfterMarker : Bool → List PyStr → Bool
  | _, [] => true
  | seen, l :: ls =>
    if isMarkerLine (pyStrip l) then labelsAfterMarker true ls
    else if isRuleLabelLine (pyStrip l) then seen && labelsAfterMarker seen ls
    else labelsAfterMarker seen ls

theorem bool_eq_false {b : Bool} (h : ¬ b = true) : b = false := by
  cases b
  · rfl
  · exact absurd rfl h

theorem freshDraft_complete (ruleTs : Nat → PyStr) (k : Nat) :
    (freshDraft ruleTs k).complete = true := rfl

theorem complete_nonempty {d : RuleDraft} (h : d.complete = true) : d.nonempty = true := by
  unfold RuleDraft.complete at h
  unfold RuleDraft.nonempty
  simp only [Bool.and_eq_true] at h
  obtain ⟨⟨⟨⟨⟨⟨⟨h1, -⟩, -⟩, -⟩, -⟩, -⟩, -⟩, -⟩ := h
  simp [h1]

theorem toRule_of_complete {d : RuleDraft} (h : d.complete = true) :
    d.toRule = some ⟨d.rule_id.getD [], d.description.getD [], d.pattern.getD [],
      d.confidence.getD 0, d.usage_count.getD 0, d.created_at.getD [],
      d.last_used.getD [], d.success_rate.getD 0⟩ := by
  unfold RuleDraft.toRule
  rw [if_pos h]

theorem complete_update_description {d : RuleDraft} (v : PyStr) (h : d.complete = true) :
    ({ d with description := some v } : RuleDraft).complete = true := by
  unfold RuleDraft.complete at h ⊢
  simp only [Bool.and_eq_true] at h ⊢
  exact ⟨⟨⟨⟨⟨⟨⟨h.1.1.1.1.1.1.1, rfl⟩, h.1.1.1.1.1.2⟩, h.1.1.1.1.2⟩, h.1.1.1.2⟩,
    h.1.1.2⟩, h.1.2⟩, h.2⟩

theorem complete_update_pattern {d : RuleDraft} (v : PyStr) (h : d.complete = true) :
    ({ d with pattern := some v } : RuleDraft).complete = true := by
  unfold RuleDraft.complete at h ⊢
  simp only [Bool.and_eq_true] at h ⊢
  exact ⟨⟨⟨⟨⟨⟨⟨h.1.1.1.1.1.1.1, h.1.1.1.1.1.1.2⟩, rfl⟩, h.1.1.1.1.2⟩, h.1.1.1.2⟩,
    h.1.1.2⟩, h.1.2⟩, h.2⟩

theorem complete_update_confidence {d : RuleDraft} (q : ℚ) (h : d.complete = true) :
    ({ d with confidence := some q } : RuleDraft).complete = true := by
  unfold RuleDraft.complete at h ⊢
  simp only [Bool.and_eq_true] at h ⊢
  exact ⟨⟨⟨⟨⟨⟨⟨h.1.1.1.1.1.1.1, h.1.1.1.1.1.1.2⟩, h.1.1.1.1.1.2⟩, rfl⟩, h.1.1.1.2⟩,
    h.1.1.2⟩, h.1.2⟩, h.2⟩

/-- Totality of the rule-grammar line loop when every label line follows
some marker: the pending dict is then always either empty or complete, so
`Rule(**current_rule)` never raises. -/
theorem parseRulesLines_total (ruleTs : Nat → PyStr) :
    ∀ (ls : List PyStr) (seen : Bool) (rules : List Rule) (cur : RuleDraft),
      (seen = false → cur = RuleDraft.empty) →
      (seen = true → cur.complete = true) →
      labelsAfterMarker seen ls = true →
      ∃ rs, parseRulesLines ruleTs ls rules cur = .ok rs := by
  intro ls
  induction ls with
  | nil =>
    intro seen rules cur h0 h1 _
    cases seen with
    | false =>
      refine ⟨rules, ?_⟩
      rw [h0 rfl]
      rfl
    | true =>
      have hc := h1 rfl
      refine ⟨rules ++ [⟨cur.rule_id.getD [], cur.description.getD [], cur.pattern.getD [],
        cur.confidence.getD 0, cur.usage_count.getD 0, cur.created_at.getD [],
        cur.last_used.getD [], cur.success_rate.getD 0⟩], ?_⟩
      rw [parseRulesLines, if_pos (complete_nonempty hc), toRule_of_complete hc]
  | cons l ls ih =>
    intro seen rules cur h0 h1 hlab
    rw [labelsAfterMarker] at hlab
    by_cases hm : isMarkerLine (pyStrip l) = true
    · rw [if_pos hm] at hlab
      rw [parseRulesLines, if_pos hm]
      cases seen with
      | false =>
        have hscr : (if cur.nonempty = true then (cur.toRule).map (fun r => rules ++ [r])
            else some rules) = some rules := by
          rw [h0 rfl]
          rfl
        rw [hscr]
        exact ih true rules (freshDraft ruleTs rules.length) (by intro h; cases h)
          (fun _ => freshDraft_complete ruleTs rules.length) hlab
      | true =>
        have hc := h1 rfl
        have hscr : (if cur.nonempty = true then (cur.toRule).map (fun r => rules ++ [r])
            else some rules) = some (rules ++ [⟨cur.rule_id.getD [], cur.description.getD [],
              cur.pattern.getD [], cur.confidence.getD 0, cur.usage_count.getD 0,
              cur.created_at.getD [], cur.last_used.getD [], cur.success_rate.getD 0⟩]) := by
          rw [if_pos (complete_nonempty hc), toRule_of_complete hc]
          rfl
        rw [hscr]
        exact ih true _ _ (by intro h; cases h) (fun _ => freshDraft_complete ruleTs _) hlab
    · rw [if_neg hm] at hlab
      rw [parseRulesLines, if_neg hm]
      by_cases hdp : containsSub (toLowerPy (pyStrip l)) "description:".toList = true
      · have hlabel : isRuleLabelLine (pyStrip l) = true := by
          unfold isRuleLabelLine
          rw [hdp]
          rfl
        rw [if_pos hlabel, Bool.and_eq_true] at hlab
        have hseen := hlab.1
        have hc := h1 hseen
        rw [if_pos hdp]
        exact ih true rules _ (by intro h; cases h)
          (fun _ => complete_update_description _ hc) (hseen ▸ hlab.2)
      · rw [if_neg hdp]
        by_cases hpr : (containsSub (toLowerPy (pyStrip l)) "pattern:".toList ||
            containsSub (toLowerPy (pyStrip l)) "rule:".toList) = true
        · have hlabel : isRuleLabelLine (pyStrip l) = true := by
            unfold isRuleLabelLine
            rcases Bool.or_eq_true .. |>.mp hpr with h | h
            · rw [h]
              simp
            · rw [h]
              simp
          rw [if_pos hlabel, Bool.and_eq_true] at hlab
          have hseen := hlab.1
          have hc := h1 hseen
          rw [if_pos hpr]
          exact ih true rules _ (by intro h; cases h)
            (fun _ => complete_update_pattern _ hc) (hseen ▸ hlab.2)
        · rw [if_neg hpr]
          by_cases hcf : containsSub (toLowerPy (pyStrip l)) "confidence:".toList = true
          · have hlabel : isRuleLabelLine (pyStrip l) = true := by
              unfold isRuleLabelLine
              rw [hcf]
              simp
            rw [if_pos hlabel, Bool.and_eq_true] at hlab
            have hseen := hlab.1
            have hc := h1 hseen
            rw [if_pos hcf]
            rcases hpf : pyFloat (pyStrip (afterFirstColon (pyStrip l))) with _ | q
            · exact ih seen rules cur h0 h1 hlab.2
            · exact ih true rules _ (by intro h; cases h)
                (fun _ => complete_update_confidence _ hc) (hseen ▸ hlab.2)
          · have hd' : containsSub (toLowerPy (pyStrip l)) "description:".toList = false :=
              bool_eq_false hdp
            have hcf' : containsSub (toLowerPy (pyStrip l)) "confidence:".toList = false :=
              bool_eq_false hcf
            obtain ⟨hp', hr'⟩ := Bool.or_eq_false_iff.mp (bool_eq_false hpr)
            have hlabel : isRuleLabelLine (pyStrip l) = false := by
              unfold isRuleLabelLine
              rw [hd', hp', hr', hcf']
              rfl
            rw [if_neg (by rw [hlabel]; simp)] at hlab
            rw [if_neg hcf]
            exact ih seen rules cur h0 h1 hlab

/-- A response with neither marker nor label lines leaves the loop state
untouched. -/
theorem parseRulesLines_skip (ruleTs : Nat → PyStr) :
    ∀ (ls : List PyStr),
      (∀ l ∈ ls, isMarkerLine (pyStrip l) = false ∧ isRuleLabelLine (pyStrip l) = false) →
      ∀ (rules : List Rule) (cur : RuleDraft),
        parseRulesLines ruleTs ls rules cur = parseRulesLines ruleTs [] rules cur := by
  intro ls
  induction ls with
  | nil => intro _ rules cur; rfl
  | cons l ls ih =>
    intro h rules cur
    have hl := h l (List.mem_cons_self l ls)
    have hrest := fun x hx => h x (List.mem_cons_of_mem l hx)
    have hnd : containsSub (toLowerPy (pyStrip l)) "description:".toList = false := by
      have := hl.2
      unfold isRuleLabelLine at this
      simp only [Bool.or_eq_false_iff] at this
      exact this.1.1.1
    have hnp : (containsSub (toLowerPy (pyStrip l)) "pattern:".toList ||
        containsSub (toLowerPy (pyStrip l)) "rule:".toList) = false := by
      have := hl.2
      unfold isRuleLabelLine at this
      simp only [Bool.or_eq_false_iff] at this
      rw [this.1.1.2, this.1.2]
      rfl
    have hnc : containsSub (toLowerPy (pyStrip l)) "confidence:".toList = false := by
      have := hl.2
      unfold isRuleLabelLine at this
      simp only [Bool.or_eq_false_iff] at this
      exact this.2
    conv_lhs => rw [parseRulesLines]
    rw [if_neg (show ¬ isMarkerLine (pyStrip l) = true by rw [hl.1]; simp)]
    rw [if_neg (show ¬ containsSub (toLowerPy (pyStrip l)) "description:".toList = true by
      rw [hnd]; simp)]
    rw [if_neg (show ¬ (containsSub (toLowerPy (pyStrip l)) "pattern:".toList ||
        containsSub (toLowerPy (pyStrip l)) "rule:".toList) = true by rw [hnp]; simp)]
    rw [if_neg (show ¬ containsSub (toLowerPy (pyStrip l)) "confidence:".toList = true by
      rw [hnc]; simp)]
    exact ih hrest rules cur

/-- Claim C2 counterexample: on the unlabeled-paragraph input
"description: foo" (a label line with no preceding enumerated marker) the
parser raises `TypeError` from `Rule(**current_rule)` on an incomplete
dict, rather than returning a list. -/
theorem c2_rule_grammar_counterexample :
    parse_rules_from_response (fun _ => []) "description: foo".toList = .error () := rfl

/-- Claim C2, amended: the rule grammar returns a list without raising for
every response in which each field-label line is preceded by some
enumerated marker line; a paragraph with no marker and no label lines
yields zero records; and a marker with no following field lines yields one
record with confidence 0.8 and empty description and pattern.  A label
line before any marker makes `Rule(**current_rule)` raise, as the
counterexample shows. -/
theorem c2_rule_grammar_amended :
    (∀ (ruleTs : Nat → PyStr) (response : PyStr),
        labelsAfterMarker false (splitLines response) = true →
        ∃ rs, parse_rules_from_response ruleTs response = .ok rs) ∧
    (∀ (ruleTs : Nat → PyStr) (response : PyStr),
        (∀ l ∈ splitLines response,
          isMarkerLine (pyStrip l) = false ∧ isRuleLabelLine (pyStrip l) = false) →
        parse_rules_from_response ruleTs response = .ok []) ∧
    parse_rules_from_response (fun _ => []) "1.\nsome plain text".toList =
      .ok [⟨"rule_0_".toList, [], [], 0.8, 1, [], [], 0.8⟩] := by
  refine ⟨?_, ?_, rfl⟩
  · intro ruleTs response hlab
    exact parseRulesLines_total ruleTs (splitLines response) false [] RuleDraft.empty
      (fun _ => rfl) (by intro h; cases h) hlab
  · intro ruleTs response h
    unfold parse_rules_from_response
    rw [parseRulesLines_skip ruleTs (splitLines response) h [] RuleDraft.empty]
    rfl

/-- Claim C2 witness: a marker followed by a description line parses
without raising. -/
theorem c2_rule_grammar_witness :
    parse_rules_from_response (fun _ => []) "1.\ndescription: d".toList ≠ .error () := by
  obtain ⟨rs, hrs⟩ := c2_rule_grammar_amended.1 (fun _ => [])
    "1.\ndescription: d".toList (by decide)
  rw [hrs]
  simp

/-- Extraction of the pending rule appended at a marker or at scan end:
its confidence is the dict's confidence entry. -/
theorem toRule_confidence {d : RuleDraft} {r : Rule} (h : d.toRule = some r) :
    d.confidence = some r.confidence := by
  unfold RuleDraft.toRule at h
  by_cases hc : d.complete = true
  · rw [if_pos hc] at h
    have hs : d.confidence.isSome = true := by
      unfold RuleDraft.complete at hc
      simp only [Bool.and_eq_true] at hc
      exact hc.1.1.1.1.2
    obtain ⟨q, hq⟩ := Option.isSome_iff_exists.mp hs
    cases h
    rw [hq]
    simp [hq]
  · rw [if_neg hc] at h
    cases h

/-- Range invariant of the rule-grammar line loop: if every parseable
confidence line carries a value in `[0, 1]`, every rule the loop emits has
confidence in `[0, 1]`. -/
theorem parseRulesLines_range (ruleTs : Nat → PyStr) :
    ∀ (ls : List PyStr) (rules : List Rule) (cur : RuleDraft),
      (∀ l ∈ ls, containsSub (toLowerPy (pyStrip l)) "confidence:".toList = true →
        ∀ q, pyFloat (pyStrip (afterFirstColon (pyStrip l))) = some q → 0 ≤ q ∧ q ≤ 1) →
      (∀ r ∈ rules, 0 ≤ r.confidence ∧ r.confidence ≤ 1) →
      (∀ q, cur.confidence = some q → 0 ≤ q ∧ q ≤ 1) →
      ∀ rs, parseRulesLines ruleTs ls rules cur = .ok rs →
        ∀ r ∈ rs, 0 ≤ r.confidence ∧ r.confidence ≤ 1 := by
  intro ls
  induction ls with
  | nil =>
    intro rules cur _ hrules hcur rs hok r hr
    rw [parseRulesLines] at hok
    by_cases hne : cur.nonempty = true
    · rw [if_pos hne] at hok
      rcases ht : cur.toRule with _ | r0
      · rw [ht] at hok
        cases hok
      · rw [ht] at hok
        cases hok
        rcases List.mem_append.mp hr with h | h
        · exact hrules r h
        · rw [List.mem_singleton.mp h]
          exact hcur r0.confidence (toRule_confidence ht)
    · rw [if_neg hne] at hok
      cases hok
      exact hrules r hr
  | cons l ls ih =>
    intro rules cur hconf hrules hcur rs hok r hr
    have hconfl := hconf l (List.mem_cons_self l ls)
    have hconfrest := fun x hx => hconf x (List.mem_cons_of_mem l hx)
    rw [parseRulesLines] at hok
    by_cases hm : isMarkerLine (pyStrip l) = true
    · rw [if_pos hm] at hok
      have hfresh : ∀ q, (freshDraft ruleTs ((if cur.nonempty = true then
          (cur.toRule).map (fun r => rules ++ [r]) else some rules).getD []).length).confidence =
          some q → 0 ≤ q ∧ q ≤ 1 := by
        intro q hq
        unfold freshDraft at hq
        simp only [Option.some.injEq] at hq
        rw [← hq]
        norm_num
      by_cases hne : cur.nonempty = true
      · rw [if_pos hne] at hok
        rcases ht : cur.toRule with _ | r0
        · rw [ht] at hok
          cases hok
        · rw [ht] at hok
          refine ih (rules ++ [r0]) _ hconfrest ?_ ?_ rs hok r hr
          · intro x hx
            rcases List.mem_append.mp hx with h | h
            · exact hrules x h
            · rw [List.mem_singleton.mp h]
              exact hcur r0.confidence (toRule_confidence ht)
          · intro q hq
            unfold freshDraft at hq
            simp only [Option.some.injEq] at hq
            rw [← hq]
            norm_num
      · rw [if_neg hne] at hok
        refine ih rules _ hconfrest hrules ?_ rs hok r hr
        intro q hq
        unfold freshDraft at hq
        simp only [Option.some.injEq] at hq
        rw [← hq]
        norm_num
    · rw [if_neg hm] at hok
      by_cases hdp : containsSub (toLowerPy (pyStrip l)) "description:".toList = true
      · rw [if_pos hdp] at hok
        refine ih rules _ hconfrest hrules ?_ rs hok r hr
        exact hcur
      · rw [if_neg hdp] at hok
        by_cases hpr : (containsSub (toLowerPy (pyStrip l)) "pattern:".toList ||
            containsSub (toLowerPy (pyStrip l)) "rule:".toList) = true
        · rw [if_pos hpr] at hok
          refine ih rules _ hconfrest hrules ?_ rs hok r hr
          exact hcur
        · rw [if_neg hpr] at hok
          by_cases hcf : containsSub (toLowerPy (pyStrip l)) "confidence:".toList = true
          · rw [if_pos hcf] at hok
            rcases hpf : pyFloat (pyStrip (afterFirstColon (pyStrip l))) with _ | q
            · rw [hpf] at hok
              exact ih rules cur hconfrest hrules hcur rs hok r hr
            · rw [hpf] at hok
              refine ih rules _ hconfrest hrules ?_ rs hok r hr
              intro q2 hq2
              simp only [Option.some.injEq] at hq2
              rw [← hq2]
              exact hconfl hcf q hpf
          · rw [if_neg hcf] at hok
            exact ih rules cur hconfrest hrules hcur rs hok r hr

/-- Claim C4 counterexample: the confidence value of a well-formed
`confidence:` line is stored without range validation, so the response
"1.\nconfidence: 5.0" produces a RuleRecord with confidence 5, outside
`[0.0, 1.0]`. -/
theorem c4_confidence_counterexample :
    parse_rules_from_response (fun _ => []) "1.\nconfidence: 5.0".toList =
      .ok [⟨"rule_0_".toList, [], [], 5, 1, [], [], 0.8⟩] ∧ ¬ ((5 : ℚ) ≤ 1) := by
  constructor
  · with_unfolding_all rfl
  · norm_num

/-- Claim C4, amended: the parser stores a parsed confidence value without
range validation; every produced RuleRecord has confidence in `[0.0, 1.0]`
provided each parseable `confidence:` line of the input carries a value in
`[0.0, 1.0]` (records with no confidence line keep the in-range default
0.8). -/
theorem c4_confidence_range_amended (ruleTs : Nat → PyStr) (response : PyStr)
    (hconf : ∀ l ∈ splitLines response,
      containsSub (toLowerPy (pyStrip l)) "confidence:".toList = true →
      ∀ q, pyFloat (pyStrip (afterFirstColon (pyStrip l))) = some q → 0 ≤ q ∧ q ≤ 1) :
    ∀ rs, parse_rules_from_response ruleTs response = .ok rs →
      ∀ r ∈ rs, 0 ≤ r.confidence ∧ r.confidence ≤ 1 := by
  intro rs hok r hr
  exact parseRulesLines_range ruleTs (splitLines response) [] RuleDraft.empty hconf
    (by intro x hx; cases hx) (by intro q hq; cases hq) rs hok r hr

/-- Claim C4 witness: the amended theorem at the response
"1.\nconfidence: 0.9". -/
theorem c4_confidence_range_witness :
    0 ≤ (⟨"rule_0_".toList, [], [], 0.9, 1, [], [], 0.8⟩ : Rule).confidence ∧
      (⟨"rule_0_".toList, [], [], 0.9, 1, [], [], 0.8⟩ : Rule).confidence ≤ 1 := by
  refine c4_confidence_range_amended (fun _ => []) "1.\nconfidence: 0.9".toList ?_
    [⟨"rule_0_".toList, [], [], 0.9, 1, [], [], 0.8⟩] (by with_unfolding_all rfl) _ (by simp)
  intro l hl hc q hq
  have hl2 : l = "1.".toList ∨ l = "confidence: 0.9".toList := by
    have : splitLines "1.\nconfidence: 0.9".toList = ["1.".toList, "confidence: 0.9".toList] := by
      decide
    rw [this] at hl
    simpa using hl
  rcases hl2 with h | h
  · rw [h] at hc
    exact absurd hc (by decide)
  · rw [h] at hq
    have hv : pyFloat (pyStrip (afterFirstColon (pyStrip "confidence: 0.9".toList))) =
        some (9 / 10) := by
      with_unfolding_all rfl
    rw [hv] at hq
    have : q = 9 / 10 := by
      injection hq with h2
      exact h2.symm
    rw [this]
    norm_num

/-! ## Claim C1: total failure of the collaborator -/

theorem generate_character_thought_fail (err : PyStr) (ch : PhilosophicalCharacter)
    (problem context : PyStr) :
    generate_character_thought (fun _ _ _ => .error err) ch problem context =
      "Error in ".toList ++ ch.name ++ "\x27s analysis: ".toList ++ err := rfl

theorem runPerspectives_fail (err : PyStr) (now : Nat → PyStr) (problem context : PyStr) :
    ∀ (chs : List (PyStr × PhilosophicalCharacter)) (i : Nat) (hist : List ReasoningStep),
      ∃ hist2,
        runPerspectives (fun _ _ _ => .error err) now problem context chs i hist =
          (chs.map fun kc =>
            (kc.1, "Error in ".toList ++ kc.2.name ++ "\x27s analysis: ".toList ++ err),
           hist2, i + chs.length) ∧
        hist2.length = hist.length + chs.length := by
  intro chs
  induction chs with
  | nil =>
    intro i hist
    exact ⟨hist, by simp [runPerspectives], by simp⟩
  | cons kc rest ih =>
    intro i hist
    obtain ⟨key, ch⟩ := kc
    obtain ⟨hist2, heq, hlen⟩ := ih (i + 1)
      (hist ++ [⟨"step_".toList ++ natChars hist.length ++ '_' :: key, key,
        generate_character_thought (fun _ _ _ => .error err) ch problem context, none, 0, now i⟩])
    refine ⟨hist2, ?_, ?_⟩
    · rw [runPerspectives, heq, generate_character_thought_fail]
      simp
      omega
    · rw [hlen]
      simp
      omega

/-- Claim C1: a pipeline run in which every collaborator call raises still
returns the complete nine-field run record: the problem and context echoed
back, a timestamp, one diagnostic error thought per character, an error
hypotheses text, the designated error DualAnswerBundle with both
confidences 0.0 and every field an explicit error string, zero new rules,
the unchanged store size, and a history grown by the five character
steps. -/
theorem c1_pipeline_total_on_failure (err problem context : PyStr) (now : Nat → PyStr)
    (st : EngineState) :
    ((solve_problem (fun _ _ _ => .error err) now problem context st).1.problem = problem) ∧
    ((solve_problem (fun _ _ _ => .error err) now problem context st).1.context = context) ∧
    ((solve_problem (fun _ _ _ => .error err) now problem context st).1.timestamp = now 5) ∧
    ((solve_problem (fun _ _ _ => .error err) now problem context st).1.character_thoughts =
      characters.map fun kc =>
        (kc.1, "Error in ".toList ++ kc.2.name ++ "\x27s analysis: ".toList ++ err)) ∧
    ((solve_problem (fun _ _ _ => .error err) now problem context st).1.hypotheses =
      "Error generating hypotheses: ".toList ++ err) ∧
    ((solve_problem (fun _ _ _ => .error err) now problem context st).1.dual_answers =
      ⟨"Error generating primary answer".toList, "Error generating alternative answer".toList,
       0, 0, "Error in dual answer generation".toList, "Error".toList⟩) ∧
    ((solve_problem (fun _ _ _ => .error err) now problem context st).1.new_rules_learned = 0) ∧
    ((solve_problem (fun _ _ _ => .error err) now problem context st).1.total_rules =
      st.rules.length) ∧
    ((solve_problem (fun _ _ _ => .error err) now problem context st).1.reasoning_steps =
      st.reasoning_history.length + 5) := by
  obtain ⟨hist2, heq, hlen⟩ :=
    runPerspectives_fail err now problem context characters 0 st.reasoning_history
  unfold solve_problem
  rw [heq]
  simp only [generate_hypothesis, simulate_future_answers, generate_dual_answers,
    abstract_rules]
  simp [hlen, characters]

/-! ## Claims C5 and C7: grid serialization round-trip -/

theorem natCharsAux_append (n : Nat) : ∀ (fuel : Nat) (acc : List Char), n < fuel →
    natCharsAux fuel n acc = natChars n ++ acc := by
  induction n using Nat.strong_induction_on with
  | _ n ih =>
    intro fuel acc hf
    cases fuel with
    | zero => omega
    | succ f =>
      by_cases h10 : n < 10
      · rw [natCharsAux, if_pos h10]
        unfold natChars
        rw [natCharsAux, if_pos h10]
        rfl
      · have hdiv : n / 10 < n := Nat.div_lt_self (by omega) (by omega)
        have hrhs : natChars n = natCharsAux n (n / 10) [Nat.digitChar (n % 10)] := by
          unfold natChars
          rw [natCharsAux, if_neg h10]
        rw [natCharsAux, if_neg h10, ih (n / 10) hdiv f _ (by omega), hrhs,
          ih (n / 10) hdiv n [Nat.digitChar (n % 10)] (by omega)]
        simp

theorem natChars_small {n : Nat} (h : n < 10) : natChars n = [Nat.digitChar n] := by
  unfold natChars
  rw [natCharsAux, if_pos h]

theorem natChars_recur {n : Nat} (h : 10 ≤ n) :
    natChars n = natChars (n / 10) ++ [Nat.digitChar (n % 10)] := by
  unfold natChars
  rw [natCharsAux, if_neg (by omega)]
  exact natCharsAux_append (n / 10) n _ (Nat.div_lt_self (by omega) (by omega))

theorem natChars_ne_nil (n : Nat) : natChars n ≠ [] := by
  by_cases h : n < 10
  · rw [natChars_small h]
    simp
  · rw [natChars_recur (by omega)]
    simp

theorem natChars_digits (n : Nat) : ∀ c ∈ natChars n, c.isDigit = true := by
  induction n using Nat.strong_induction_on with
  | _ n ih =>
    by_cases h : n < 10
    · rw [natChars_small h]
      intro c hc
      simp at hc
      subst hc
      interval_cases n <;> decide
    · rw [natChars_recur (by omega)]
      intro c hc
      rcases List.mem_append.mp hc with h1 | h1
      · exact ih (n / 10) (Nat.div_lt_self (by omega) (by omega)) c h1
      · simp at h1
        subst h1
        have hm : n % 10 < 10 := Nat.mod_lt _ (by omega)
        set m := n % 10 with hmdef
        interval_cases m <;> decide

theorem natChars_head_ne_zero : ∀ n : Nat, n ≠ 0 → (natChars n).head? ≠ some '0' := by
  intro n
  induction n using Nat.strong_induction_on with
  | _ n ih =>
    intro hn
    by_cases h10 : n < 10
    · rw [natChars_small h10]
      have h1 : 1 ≤ n := by omega
      interval_cases n <;> decide
    · rw [natChars_recur (by omega)]
      rcases he : natChars (n / 10) with _ | ⟨c, t⟩
      · exact absurd he (natChars_ne_nil _)
      · have hdiv0 : n / 10 ≠ 0 := by
          have : 10 / 10 ≤ n / 10 := Nat.div_le_div_right (by omega)
          omega
        have hih := ih (n / 10) (Nat.div_lt_self (by omega) (by omega)) hdiv0
        rw [he] at hih
        simp only [List.cons_append, List.head?_cons] at hih ⊢
        exact hih

theorem digitChar_val {m : Nat} (h : m < 10) : (Nat.digitChar m).toNat - 48 = m := by
  interval_cases m <;> decide

theorem foldl_digits_natChars (n : Nat) :
    ∀ a, (natChars n).foldl (fun a c => a * 10 + (c.toNat - 48)) a =
      a * 10 ^ (natChars n).length + n := by
  induction n using Nat.strong_induction_on with
  | _ n ih =>
    intro a
    by_cases h : n < 10
    · rw [natChars_small h]
      simp [digitChar_val h]
    · rw [natChars_recur (by omega), List.foldl_append,
        ih (n / 10) (Nat.div_lt_self (by omega) (by omega)) a]
      have h1 : (natChars (n / 10) ++ [Nat.digitChar (n % 10)]).length =
          (natChars (n / 10)).length + 1 := by simp
      rw [h1]
      simp only [List.foldl_cons, List.foldl_nil]
      rw [digitChar_val (Nat.mod_lt _ (by omega))]
      calc (a * 10 ^ (natChars (n / 10)).length + n / 10) * 10 + n % 10
          = a * (10 ^ (natChars (n / 10)).length * 10) + (n / 10 * 10 + n % 10) := by ring
        _ = a * 10 ^ ((natChars (n / 10)).length + 1) + n := by rw [pow_succ, Nat.div_add_mod']

theorem digitsVal_natChars (n : Nat) : digitsVal (natChars n) = n := by
  unfold digitsVal
  rw [foldl_digits_natChars n 0]
  simp

theorem munchDigits_append : ∀ (ds rest : PyStr), (∀ c ∈ ds, c.isDigit = true) →
    (∀ c, rest.head? = some c → c.isDigit = false) →
    munchDigits (ds ++ rest) = (ds, rest) := by
  intro ds
  induction ds with
  | nil =>
    intro rest _ hrest
    rcases rest with _ | ⟨c, t⟩
    · rfl
    · rw [List.nil_append, munchDigits, if_neg (by rw [hrest c rfl]; simp)]
  | cons d ds ih =>
    intro rest hds hrest
    rw [List.cons_append, munchDigits, if_pos (hds d (List.mem_cons_self d ds)),
      ih rest (fun c hc => hds c (List.mem_cons_of_mem d hc)) hrest]

/-- A decimal digit is not JSON whitespace and is none of the structural
characters of the grid sublanguage. -/
theorem digit_char_classes {c : Char} (h : c.isDigit = true) :
    isJsonWs c = false ∧ c ≠ '-' ∧ c ≠ '[' ∧ c ≠ ']' ∧ c ≠ ',' := by
  refine ⟨?_, ?_, ?_, ?_, ?_⟩
  · by_cases h1 : c = ' '
    · rw [h1] at h
      exact absurd h (by decide)
    · by_cases h2 : c = '\t'
      · rw [h2] at h
        exact absurd h (by decide)
      · by_cases h3 : c = '\n'
        · rw [h3] at h
          exact absurd h (by decide)
        · by_cases h4 : c = '\r'
          · rw [h4] at h
            exact absurd h (by decide)
          · simp [isJsonWs, h1, h2, h3, h4]
  · intro h1
    rw [h1] at h
    exact absurd h (by decide)
  · intro h1
    rw [h1] at h
    exact absurd h (by decide)
  · intro h1
    rw [h1] at h
    exact absurd h (by decide)
  · intro h1
    rw [h1] at h
    exact absurd h (by decide)

/-- Shape of a serialized integer: it is non-empty and begins with a minus
sign or a digit, hence with a non-whitespace, non-structural character. -/
theorem intChars_head (n : Int) : ∃ c t, intChars n = c :: t ∧
    isJsonWs c = false ∧ c ≠ '[' ∧ c ≠ ']' ∧ c ≠ ',' := by
  unfold intChars
  by_cases hn : n < 0
  · rw [if_pos hn]
    exact ⟨'-', _, rfl, by decide, by decide, by decide, by decide⟩
  · rw [if_neg hn]
    rcases he : natChars n.toNat with _ | ⟨c, t⟩
    · exact absurd he (natChars_ne_nil _)
    · have hc : c.isDigit = true := natChars_digits n.toNat c (by rw [he]; simp)
      obtain ⟨h1, _, h3, h4, h5⟩ := digit_char_classes hc
      exact ⟨c, t, rfl, h1, h3, h4, h5⟩

theorem parseJIntCore_natChars (m : Nat) (rest : PyStr)
    (hrest : ∀ c, rest.head? = some c → c.isDigit = false) :
    parseJIntCore (natChars m ++ rest) = some (m, rest) := by
  unfold parseJIntCore
  rw [munchDigits_append (natChars m) rest (natChars_digits m) hrest]
  dsimp only
  have hne : (natChars m).isEmpty = false := by
    rcases he : natChars m with _ | ⟨c, t⟩
    · exact absurd he (natChars_ne_nil m)
    · rfl
  rw [if_neg (by rw [hne]; simp)]
  by_cases hm : m = 0
  · subst hm
    rw [show natChars 0 = ['0'] from natChars_small (by omega)]
    rw [if_neg (by decide)]
    rfl
  · have hz := natChars_head_ne_zero m hm
    rw [if_neg (by simp [hz])]
    rw [digitsVal_natChars]

theorem parseJInt_intChars (n : Int) (rest : PyStr)
    (hrest : ∀ c, rest.head? = some c → c.isDigit = false) :
    parseJInt (intChars n ++ rest) = some (n, rest) := by
  unfold parseJInt
  by_cases hn : n < 0
  · rw [show intChars n = '-' :: natChars (-n).toNat from by unfold intChars; rw [if_pos hn]]
    rw [List.cons_append]
    rw [if_pos (by simp)]
    simp only [List.tail_cons]
    rw [parseJIntCore_natChars _ rest hrest]
    simp only [Option.map_some']
    have : -(((-n).toNat : Int)) = n := by omega
    rw [this]
  · rw [show intChars n = natChars n.toNat from by unfold intChars; rw [if_neg hn]]
    obtain ⟨c, t, he, _, _, _, _⟩ := intChars_head n
    have he2 : natChars n.toNat = c :: t := by
      rw [← he]
      unfold intChars
      rw [if_neg hn]
    have hcd : c.isDigit = true := natChars_digits n.toNat c (by rw [he2]; simp)
    rw [he2, List.cons_append]
    rw [if_neg (by
      simp only [List.head?_cons, Option.some.injEq]
      intro h
      rw [h] at hcd
      exact absurd hcd (by decide))]
    rw [← List.cons_append, ← he2, parseJIntCore_natChars _ rest hrest]
    simp only [Option.map_some']
    have : ((n.toNat : Int)) = n := Int.toNat_of_nonneg (by omega)
    rw [this]

theorem dropJWs_cons_not_ws {c : Char} {t : PyStr} (h : isJsonWs c = false) :
    dropJWs (c :: t) = c :: t :=
  dropWhile_eq_self h

theorem joinComma_head_append (a : PyStr) (ls : List PyStr) :
    ∃ tail, joinComma (a :: ls) = a ++ tail := by
  cases ls with
  | nil => exact ⟨[], by simp [joinComma]⟩
  | cons b bs => exact ⟨',' :: joinComma (b :: bs), rfl⟩

theorem parseCellsRest_dumps :
    ∀ (xs : List Int) (x : Int) (fuel : Nat) (rest : PyStr), xs.length < fuel →
      parseCellsRest fuel (joinComma ((x :: xs).map intChars) ++ ']' :: rest) =
        some (x :: xs, rest) := by
  intro xs
  induction xs with
  | nil =>
    intro x fuel rest hf
    cases fuel with
    | zero => omega
    | succ f =>
      rw [parseCellsRest]
      rw [show joinComma (([x] : List Int).map intChars) = intChars x from rfl]
      rw [parseJInt_intChars x (']' :: rest) (by
        intro c hc
        simp at hc
        rw [← hc]
        decide)]
      dsimp only
      rw [dropJWs_cons_not_ws (by decide)]
      rw [if_neg (by rw [List.head?_cons]; decide), if_pos (by rw [List.head?_cons])]
      simp
  | cons y ys ih =>
    intro x fuel rest hf
    cases fuel with
    | zero => omega
    | succ f =>
      rw [parseCellsRest]
      have hsplit : joinComma ((x :: y :: ys).map intChars) ++ ']' :: rest =
          intChars x ++ ',' :: (joinComma ((y :: ys).map intChars) ++ ']' :: rest) := by
        show (intChars x ++ ',' :: joinComma ((y :: ys).map intChars)) ++ ']' :: rest = _
        simp [List.append_assoc]
      rw [hsplit]
      rw [parseJInt_intChars x _ (by
        intro c hc
        simp at hc
        rw [← hc]
        decide)]
      dsimp only
      rw [dropJWs_cons_not_ws (by decide)]
      rw [if_pos (by rw [List.head?_cons])]
      simp only [List.tail_cons]
      obtain ⟨c, t, hey, hws, _, _, _⟩ := intChars_head y
      obtain ⟨tl, hjc⟩ := joinComma_head_append (intChars y) (ys.map intChars)
      have hB : joinComma ((y :: ys).map intChars) ++ ']' :: rest =
          c :: (t ++ (tl ++ ']' :: rest)) := by
        rw [show (y :: ys).map intChars = intChars y :: ys.map intChars from rfl, hjc, hey]
        simp [List.append_assoc]
      rw [hB, dropJWs_cons_not_ws hws, ← hB]
      rw [ih y f rest (by simp at hf ⊢; omega)]

theorem parseRowBody_dumps (row : List Int) (fuel : Nat) (h : row.length ≤ fuel)
    (rest : PyStr) :
    parseRowBody fuel (joinComma (row.map intChars) ++ ']' :: rest) = some (row, rest) := by
  cases row with
  | nil =>
    unfold parseRowBody
    rw [show joinComma (([] : List Int).map intChars) ++ ']' :: rest = ']' :: rest from rfl]
    rw [dropJWs_cons_not_ws (by decide)]
    rw [if_pos (by rw [List.head?_cons])]
    simp
  | cons x xs =>
    unfold parseRowBody
    obtain ⟨c, t, hex, hws, _, h4, _⟩ := intChars_head x
    obtain ⟨tl, hjc⟩ := joinComma_head_append (intChars x) (xs.map intChars)
    have hB : joinComma ((x :: xs).map intChars) ++ ']' :: rest =
        c :: (t ++ (tl ++ ']' :: rest)) := by
      rw [show (x :: xs).map intChars = intChars x :: xs.map intChars from rfl, hjc, hex]
      simp [List.append_assoc]
    rw [hB, dropJWs_cons_not_ws hws, ← hB]
    rw [if_neg (by
      rw [hB, List.head?_cons]
      simp only [Option.some.injEq]
      intro hh
      exact h4 hh)]
    exact parseCellsRest_dumps xs x fuel rest (by simp at h ⊢; omega)

theorem parseElemVal_dumpsRow (r : List Int) (fuel : Nat) (h : r.length ≤ fuel)
    (rest : PyStr) :
    parseElemVal fuel (dumpsRow r ++ rest) = some (Sum.inr r, rest) := by
  unfold parseElemVal
  have hd : dumpsRow r ++ rest = '[' :: (joinComma (r.map intChars) ++ ']' :: rest) := by
    show ('[' :: (joinComma (r.map intChars) ++ [']'])) ++ rest = _
    simp [List.append_assoc]
  rw [hd]
  rw [if_pos (by rw [List.head?_cons])]
  simp only [List.tail_cons]
  rw [parseRowBody_dumps r fuel h rest]
  rfl

theorem dumpsRow_length : ∀ (r : List Int), r.length + 1 ≤ (dumpsRow r).length := by
  intro r
  induction r with
  | nil => decide
  | cons x xs ih =>
    have h3 : 1 ≤ (intChars x).length := by
      obtain ⟨c, t, he, -, -, -, -⟩ := intChars_head x
      rw [he]
      simp
    cases xs with
    | nil =>
      have h1 : (dumpsRow [x]).length = (intChars x).length + 2 := by
        show ('[' :: (joinComma ([x].map intChars) ++ [']'])).length = _
        rw [show joinComma ([x].map intChars) = intChars x from rfl]
        simp
      rw [h1]
      simp
    | cons y ys =>
      have h1 : (dumpsRow (x :: y :: ys)).length =
          (intChars x).length + (joinComma ((y :: ys).map intChars)).length + 3 := by
        show ('[' :: (joinComma ((x :: y :: ys).map intChars) ++ [']'])).length = _
        rw [show joinComma ((x :: y :: ys).map intChars) =
          intChars x ++ ',' :: joinComma ((y :: ys).map intChars) from rfl]
        simp [List.length_append]
        omega
      have h2 : (dumpsRow (y :: ys)).length =
          (joinComma ((y :: ys).map intChars)).length + 2 := by
        show ('[' :: (joinComma ((y :: ys).map intChars) ++ [']'])).length = _
        simp
      rw [h2] at ih
      simp only [List.length_cons] at ih ⊢
      omega

theorem dumpsGrid_bounds : ∀ (g : Grid), g.length + 1 ≤ (dumpsGrid g).length ∧
    ∀ r ∈ g, r.length + g.length ≤ (dumpsGrid g).length := by
  intro g
  induction g with
  | nil => exact ⟨by decide, by intro r hr; cases hr⟩
  | cons r0 rows ih =>
    have h3 := dumpsRow_length r0
    cases rows with
    | nil =>
      have h1 : (dumpsGrid [r0]).length = (dumpsRow r0).length + 2 := by
        show ('[' :: (joinComma ([r0].map dumpsRow) ++ [']'])).length = _
        rw [show joinComma ([r0].map dumpsRow) = dumpsRow r0 from rfl]
        simp
      constructor
      · rw [h1]
        simp
      · intro r hr
        simp at hr
        subst hr
        rw [h1]
        simp only [List.length_cons, List.length_nil]
        omega
    | cons r1 rest =>
      have h1 : (dumpsGrid (r0 :: r1 :: rest)).length =
          (dumpsRow r0).length + (joinComma ((r1 :: rest).map dumpsRow)).length + 3 := by
        show ('[' :: (joinComma ((r0 :: r1 :: rest).map dumpsRow) ++ [']'])).length = _
        rw [show joinComma ((r0 :: r1 :: rest).map dumpsRow) =
          dumpsRow r0 ++ ',' :: joinComma ((r1 :: rest).map dumpsRow) from rfl]
        simp [List.length_append]
        omega
      have h2 : (dumpsGrid (r1 :: rest)).length =
          (joinComma ((r1 :: rest).map dumpsRow)).length + 2 := by
        show ('[' :: (joinComma ((r1 :: rest).map dumpsRow) ++ [']'])).length = _
        simp
      obtain ⟨ih1, ih2⟩ := ih
      rw [h2] at ih1
      constructor
      · rw [h1]
        simp only [List.length_cons] at ih1 ⊢
        omega
      · intro r hr
        rcases List.mem_cons.mp hr with h | h
        · subst h
          rw [h1]
          simp only [List.length_cons] at ih1 ⊢
          omega
        · have hr2 := ih2 r h
          rw [h2] at hr2
          rw [h1]
          simp only [List.length_cons] at ih1 hr2 ⊢
          omega

theorem parseElemsRest_dumps :
    ∀ (rows : List (List Int)) (r0 : List Int) (fuel : Nat) (rest : PyStr),
      rows.length < fuel → r0.length < fuel →
      (∀ r ∈ rows, r.length + rows.length < fuel) →
      parseElemsRest fuel (joinComma ((r0 :: rows).map dumpsRow) ++ ']' :: rest) =
        some ((r0 :: rows).map Sum.inr, rest) := by
  intro rows
  induction rows with
  | nil =>
    intro r0 fuel rest hf hr0 _
    cases fuel with
    | zero => omega
    | succ f =>
      rw [parseElemsRest]
      rw [show joinComma (([r0] : List (List Int)).map dumpsRow) = dumpsRow r0 from rfl]
      rw [show dumpsRow r0 ++ ']' :: rest = dumpsRow r0 ++ (']' :: rest) from rfl]
      rw [parseElemVal_dumpsRow r0 f (by omega) (']' :: rest)]
      dsimp only
      rw [dropJWs_cons_not_ws (by decide)]
      rw [if_neg (by rw [List.head?_cons]; decide), if_pos (by rw [List.head?_cons])]
      simp
  | cons r1 rows' ih =>
    intro r0 fuel rest hf hr0 hmem
    cases fuel with
    | zero => omega
    | succ f =>
      rw [parseElemsRest]
      have hsplit : joinComma ((r0 :: r1 :: rows').map dumpsRow) ++ ']' :: rest =
          dumpsRow r0 ++ (',' :: (joinComma ((r1 :: rows').map dumpsRow) ++ ']' :: rest)) := by
        show (dumpsRow r0 ++ ',' :: joinComma ((r1 :: rows').map dumpsRow)) ++ ']' :: rest = _
        simp [List.append_assoc]
      rw [hsplit]
      rw [parseElemVal_dumpsRow r0 f (by omega) _]
      dsimp only
      rw [dropJWs_cons_not_ws (by decide)]
      rw [if_pos (by rw [List.head?_cons])]
      simp only [List.tail_cons]
      obtain ⟨tl, hjc⟩ := joinComma_head_append (dumpsRow r1) (rows'.map dumpsRow)
      have hjc2 : joinComma ((r1 :: rows').map dumpsRow) = dumpsRow r1 ++ tl := hjc
      have hB : joinComma ((r1 :: rows').map dumpsRow) ++ ']' :: rest =
          '[' :: ((joinComma (r1.map intChars) ++ [']']) ++ (tl ++ ']' :: rest)) := by
        rw [hjc2]
        show (('[' :: (joinComma (r1.map intChars) ++ [']'])) ++ tl) ++ ']' :: rest = _
        simp [List.append_assoc]
      rw [hB, dropJWs_cons_not_ws (by decide), ← hB]
      rw [ih r1 f rest (by simp at hf ⊢; omega)
        (by
          have := hmem r1 (List.mem_cons_self r1 rows')
          simp only [List.length_cons] at this
          omega)
        (by
          intro r hr
          have := hmem r (List.mem_cons_of_mem r1 hr)
          simp only [List.length_cons] at this ⊢
          omega)]
      rfl

theorem jsonLoads_dumpsGrid (g : Grid) : jsonLoads (dumpsGrid g) = some (.arr (g.map Sum.inr)) := by
  unfold jsonLoads
  have hd : dumpsGrid g = '[' :: (joinComma (g.map dumpsRow) ++ [']']) := rfl
  rw [hd, dropJWs_cons_not_ws (by decide)]
  rw [if_pos (by rw [List.head?_cons])]
  simp only [List.tail_cons]
  cases g with
  | nil =>
    rw [show joinComma (([] : Grid).map dumpsRow) ++ ([']'] : PyStr) = [']'] from rfl]
    unfold parseTopBody
    rw [show ([']'] : PyStr) = ']' :: [] from rfl, dropJWs_cons_not_ws (by decide)]
    rw [if_pos (by rw [List.head?_cons])]
    simp [dropJWs]
  | cons r0 rows =>
    unfold parseTopBody
    obtain ⟨tl, hjc⟩ := joinComma_head_append (dumpsRow r0) (rows.map dumpsRow)
    have hjc2 : joinComma ((r0 :: rows).map dumpsRow) = dumpsRow r0 ++ tl := hjc
    have hB : joinComma ((r0 :: rows).map dumpsRow) ++ ([']'] : PyStr) =
        '[' :: ((joinComma (r0.map intChars) ++ [']']) ++ (tl ++ [']'])) := by
      rw [hjc2]
      show (('[' :: (joinComma (r0.map intChars) ++ [']'])) ++ tl) ++ [']'] = _
      simp [List.append_assoc]
    rw [hB, dropJWs_cons_not_ws (by decide), ← hB]
    rw [if_neg (by rw [hB, List.head?_cons]; decide)]
    have hbounds := dumpsGrid_bounds (r0 :: rows)
    have hdg : (dumpsGrid (r0 :: rows)).length =
        (joinComma ((r0 :: rows).map dumpsRow)).length + 2 := by
      rw [show dumpsGrid (r0 :: rows) =
        '[' :: (joinComma ((r0 :: rows).map dumpsRow) ++ [']']) from rfl]
      simp
    have hb2 : ('[' :: (joinComma ((r0 :: rows).map dumpsRow) ++ [']'])).length =
        (joinComma ((r0 :: rows).map dumpsRow)).length + 2 := by simp
    have hre : joinComma ((r0 :: rows).map dumpsRow) ++ ([']'] : PyStr) =
        joinComma ((r0 :: rows).map dumpsRow) ++ ']' :: [] := rfl
    rw [hre, parseElemsRest_dumps rows r0 _ []
      (by
        have h5 := hbounds.1
        rw [hdg] at h5
        rw [hb2]
        simp only [List.length_cons] at h5 ⊢
        omega)
      (by
        have h5 := hbounds.2 r0 (List.mem_cons_self r0 rows)
        rw [hdg] at h5
        rw [hb2]
        simp only [List.length_cons] at h5 ⊢
        omega)
      (by
        intro r hr
        have h5 := hbounds.2 r (List.mem_cons_of_mem r0 hr)
        rw [hdg] at h5
        rw [hb2]
        simp only [List.length_cons] at h5 ⊢
        omega)]
    simp [dropJWs]

theorem jtopToRows_map_inr : ∀ (g : Grid),
    jtopToRows (.arr (g.map Sum.inr)) = some g := by
  intro g
  induction g with
  | nil => rfl
  | cons r rows ih =>
    unfold jtopToRows at ih ⊢
    dsimp only at ih ⊢
    rw [List.map_cons, List.mapM_cons, ih]
    rfl

theorem looks_like_of_valid (g : Grid) (h1 : g ≠ []) (h2 : ∀ r ∈ g, r ≠ [])
    (h3 : ∀ r ∈ g, r.length = (g.head?.getD []).length) :
    looks_like_grid (.arr (g.map Sum.inr)) = true := by
  rcases g with _ | ⟨r0, t⟩
  · exact absurd rfl h1
  · unfold looks_like_grid
    dsimp only
    rw [if_neg (by simp)]
    have hall : ((r0 :: t).map (Sum.inr : List Int → Int ⊕ List Int)).all
        (fun e => match e with | Sum.inl _ => false | Sum.inr r => !r.isEmpty) = true := by
      rw [List.all_eq_true]
      intro e he
      rw [List.mem_map] at he
      obtain ⟨r, hr, hre⟩ := he
      rw [← hre]
      have hrne := h2 r hr
      rcases r with _ | ⟨c, cs⟩
      · exact absurd rfl hrne
      · rfl
    rw [if_neg (by rw [hall]; simp)]
    rw [List.all_eq_true]
    intro e he
    rw [List.mem_map] at he
    obtain ⟨r, hr, hre⟩ := he
    rw [← hre]
    have := h3 r hr
    simp only [List.head?_cons, Option.getD_some] at this
    simp [this]

/-- Claim C7: serializing a rectangular grid of positive dimensions with
non-negative integer cells to its bracketed JSON text and re-parsing with
`parse_grid` reproduces the identical grid. -/
theorem c7_grid_roundtrip (g : Grid) (h1 : g ≠ []) (h2 : ∀ r ∈ g, r ≠ [])
    (h3 : ∀ r ∈ g, r.length = (g.head?.getD []).length)
    (h4 : ∀ r ∈ g, ∀ v ∈ r, 0 ≤ v) :
    parse_grid (dumpsGrid g) = some g := by
  unfold parse_grid
  rw [jsonLoads_dumpsGrid]
  dsimp only
  rw [if_pos (looks_like_of_valid g h1 h2 h3)]
  exact jtopToRows_map_inr g

/-- Claim C7 witness: the round-trip at the grid `[[1,2],[3,4]]`. -/
theorem c7_grid_roundtrip_witness :
    parse_grid (dumpsGrid [[1, 2], [3, 4]]) = some [[1, 2], [3, 4]] :=
  c7_grid_roundtrip [[1, 2], [3, 4]] (by decide) (by decide) (by decide) (by decide)

theorem dumpsGrid_inj {g h : Grid} (he : dumpsGrid g = dumpsGrid h) : g = h := by
  have hg := jsonLoads_dumpsGrid g
  rw [he, jsonLoads_dumpsGrid h] at hg
  injection hg with h2
  injection h2 with h3
  have : Function.Injective (Sum.inr : List Int → Int ⊕ List Int) := fun a b hab => by
    injection hab
  exact (List.map_injective_iff.mpr this h3).symm

theorem bestKey_pred (g : Grid) :
    (jsonLoads (dumpsGrid g)).bind jtopToRows = some g := by
  rw [jsonLoads_dumpsGrid]
  exact jtopToRows_map_inr g

theorem mem_dedupFirstAux_not_seen : ∀ (l seen : List PyStr) (x : PyStr),
    x ∈ dedupFirstAux l seen → x ∉ seen := by
  intro l
  induction l with
  | nil =>
    intro seen x hx
    rw [show dedupFirstAux [] seen = [] from rfl] at hx
    exact absurd hx (List.not_mem_nil x)
  | cons k ks ih =>
    intro seen x hx
    rw [show dedupFirstAux (k :: ks) seen = if k ∈ seen then dedupFirstAux ks seen
        else k :: dedupFirstAux ks (k :: seen) from rfl] at hx
    by_cases hk : k ∈ seen
    · rw [if_pos hk] at hx
      exact ih seen x hx
    · rw [if_neg hk] at hx
      rcases List.mem_cons.mp hx with h | h
      · rw [h]; exact hk
      · intro hxs
        exact ih (k :: seen) x h (List.mem_cons_of_mem k hxs)

theorem mem_dedupFirstAux_sub : ∀ (l seen : List PyStr) (x : PyStr),
    x ∈ dedupFirstAux l seen → x ∈ l := by
  intro l
  induction l with
  | nil =>
    intro seen x hx
    rw [show dedupFirstAux [] seen = [] from rfl] at hx
    exact absurd hx (List.not_mem_nil x)
  | cons k ks ih =>
    intro seen x hx
    rw [show dedupFirstAux (k :: ks) seen = if k ∈ seen then dedupFirstAux ks seen
        else k :: dedupFirstAux ks (k :: seen) from rfl] at hx
    by_cases hk : k ∈ seen
    · rw [if_pos hk] at hx
      exact List.mem_cons_of_mem k (ih seen x hx)
    · rw [if_neg hk] at hx
      rcases List.mem_cons.mp hx with h | h
      · rw [h]; exact List.mem_cons_self k ks
      · exact List.mem_cons_of_mem k (ih (k :: seen) x h)

theorem mem_dedupFirstAux_complete : ∀ (l seen : List PyStr) (x : PyStr),
    x ∈ l → x ∈ dedupFirstAux l seen ∨ x ∈ seen := by
  intro l
  induction l with
  | nil =>
    intro seen x hx
    exact absurd hx (List.not_mem_nil x)
  | cons k ks ih =>
    intro seen x hx
    rw [show dedupFirstAux (k :: ks) seen = if k ∈ seen then dedupFirstAux ks seen
        else k :: dedupFirstAux ks (k :: seen) from rfl]
    by_cases hk : k ∈ seen
    · rw [if_pos hk]
      rcases List.mem_cons.mp hx with h | h
      · right; rw [h]; exact hk
      · exact ih seen x h
    · rw [if_neg hk]
      rcases List.mem_cons.mp hx with h | h
      · left; rw [h]; exact List.mem_cons_self k _
      · rcases ih (k :: seen) x h with h2 | h2
        · left; exact List.mem_cons_of_mem k h2
        · rcases List.mem_cons.mp h2 with h3 | h3
          · left; rw [h3]; exact List.mem_cons_self k _
          · right; exact h3

theorem dedupFirstAux_order : ∀ (l seen d1 : List PyStr) (c : PyStr) (d2 : List PyStr),
    dedupFirstAux l seen = d1 ++ c :: d2 →
    ∀ x ∈ d2, ∀ p q : List PyStr, l = p ++ c :: q → c ∉ p → x ∉ p := by
  intro l
  induction l with
  | nil =>
    intro seen d1 c d2 h
    rw [show dedupFirstAux [] seen = [] from rfl] at h
    exact absurd h.symm (by simp)
  | cons k ks ih =>
    intro seen d1 c d2 h x hx p q hpq hcp
    rw [show dedupFirstAux (k :: ks) seen = if k ∈ seen then dedupFirstAux ks seen
        else k :: dedupFirstAux ks (k :: seen) from rfl] at h
    by_cases hk : k ∈ seen
    · rw [if_pos hk] at h
      rcases p with _ | ⟨p0, pr⟩
      · exact List.not_mem_nil x
      · rw [List.cons_append] at hpq
        injection hpq with h1 h2
        intro hxp
        rcases List.mem_cons.mp hxp with hxe | hxpr
        · have hxmem : x ∈ dedupFirstAux ks seen := by
            rw [h]
            exact List.mem_append_right _ (List.mem_cons_of_mem c hx)
          exact mem_dedupFirstAux_not_seen ks seen x hxmem (by rw [hxe, ← h1]; exact hk)
        · exact ih seen d1 c d2 h x hx pr q h2
            (fun hc => hcp (List.mem_cons_of_mem p0 hc)) hxpr
    · rw [if_neg hk] at h
      rcases d1 with _ | ⟨e, dr⟩
      · rw [List.nil_append] at h
        injection h with h1 h2
        rcases p with _ | ⟨p0, pr⟩
        · exact List.not_mem_nil x
        · rw [List.cons_append] at hpq
          injection hpq with h3 h4
          exact absurd (show c ∈ p0 :: pr by
            rw [← h1, h3]; exact List.mem_cons_self p0 pr) hcp
      · rw [List.cons_append] at h
        injection h with h1 h2
        rcases p with _ | ⟨p0, pr⟩
        · exact List.not_mem_nil x
        · rw [List.cons_append] at hpq
          injection hpq with h3 h4
          intro hxp
          rcases List.mem_cons.mp hxp with hxe | hxpr
          · have hxmem : x ∈ dedupFirstAux ks (k :: seen) := by
              rw [h2]
              exact List.mem_append_right _ (List.mem_cons_of_mem c hx)
            exact mem_dedupFirstAux_not_seen ks (k :: seen) x hxmem
              (by rw [hxe, ← h3]; exact List.mem_cons_self k seen)
          · exact ih (k :: seen) dr c d2 h2 x hx pr q h4
              (fun hc => hcp (List.mem_cons_of_mem p0 hc)) hxpr

theorem mem_first_split : ∀ (l : List PyStr) (c : PyStr),
    c ∈ l → ∃ p q, l = p ++ c :: q ∧ c ∉ p := by
  intro l
  induction l with
  | nil =>
    intro c hc
    exact absurd hc (List.not_mem_nil c)
  | cons a t ih =>
    intro c hc
    by_cases hac : c = a
    · refine ⟨[], t, by rw [hac]; rfl, List.not_mem_nil c⟩
    · have hct : c ∈ t := by
        rcases List.mem_cons.mp hc with h | h
        · exact absurd h hac
        · exact h
      obtain ⟨p, q, hpq, hcp⟩ := ih c hct
      refine ⟨a :: p, q, by rw [List.cons_append, hpq], ?_⟩
      intro hm
      rcases List.mem_cons.mp hm with h | h
      · exact hac h
      · exact hcp h

theorem dedupFirst_ne_nil (keys : List PyStr) (h : keys ≠ []) : dedupFirst keys ≠ [] := by
  rcases keys with _ | ⟨k, ks⟩
  · exact absurd rfl h
  · unfold dedupFirst
    rw [show dedupFirstAux (k :: ks) [] = if k ∈ ([] : List PyStr) then dedupFirstAux ks []
        else k :: dedupFirstAux ks [k] from rfl]
    rw [if_neg (List.not_mem_nil k)]
    exact List.cons_ne_nil k _

theorem foldl_best_some (keys : List PyStr) : ∀ (l : List PyStr) (b0 : PyStr),
    (List.foldl (fun best k => match best with
        | none => some k
        | some b => if keys.count k > keys.count b then some k else some b) (some b0) l =
          some b0 ∧ ∀ x ∈ l, keys.count x ≤ keys.count b0) ∨
    (∃ l1 c l2, l = l1 ++ c :: l2 ∧
      List.foldl (fun best k => match best with
        | none => some k
        | some b => if keys.count k > keys.count b then some k else some b) (some b0) l =
          some c ∧
      keys.count b0 < keys.count c ∧ (∀ x ∈ l1, keys.count x < keys.count c) ∧
      (∀ x ∈ l2, keys.count x ≤ keys.count c)) := by
  intro l
  induction l with
  | nil =>
    intro b0
    left
    refine ⟨rfl, ?_⟩
    intro x hx
    exact absurd hx (List.not_mem_nil x)
  | cons a t ih =>
    intro b0
    rw [List.foldl_cons]
    dsimp only
    by_cases hab : keys.count a > keys.count b0
    · rw [if_pos hab]
      rcases ih a with ⟨heq, hall⟩ | ⟨t1, c, t2, hsplit, heq, hlt, hl1, hl2⟩
      · right
        refine ⟨[], a, t, rfl, heq, hab, ?_, hall⟩
        intro x hx
        exact absurd hx (List.not_mem_nil x)
      · right
        refine ⟨a :: t1, c, t2, by rw [List.cons_append, hsplit], heq,
          lt_trans hab hlt, ?_, hl2⟩
        intro x hx
        rcases List.mem_cons.mp hx with h | h
        · rw [h]; exact hlt
        · exact hl1 x h
    · rw [if_neg hab]
      rcases ih b0 with ⟨heq, hall⟩ | ⟨t1, c, t2, hsplit, heq, hlt, hl1, hl2⟩
      · left
        refine ⟨heq, ?_⟩
        intro x hx
        rcases List.mem_cons.mp hx with h | h
        · rw [h]; exact Nat.le_of_not_lt hab
        · exact hall x h
      · right
        refine ⟨a :: t1, c, t2, by rw [List.cons_append, hsplit], heq, hlt, ?_, hl2⟩
        intro x hx
        rcases List.mem_cons.mp hx with h | h
        · rw [h]; exact lt_of_le_of_lt (Nat.le_of_not_lt hab) hlt
        · exact hl1 x h

theorem mostCommon1_first_modal (keys : List PyStr) (h : dedupFirst keys ≠ []) :
    ∃ d1 c d2, dedupFirst keys = d1 ++ c :: d2 ∧ mostCommon1 keys = some c ∧
      (∀ x ∈ d1, keys.count x < keys.count c) ∧
      (∀ x ∈ d2, keys.count x ≤ keys.count c) := by
  rcases hd : dedupFirst keys with _ | ⟨a, t⟩
  · exact absurd hd h
  · have hmc : mostCommon1 keys = List.foldl (fun best k => match best with
        | none => some k
        | some b => if keys.count k > keys.count b then some k else some b) (some a) t := by
      unfold mostCommon1
      rw [hd, List.foldl_cons]
    rcases foldl_best_some keys t a with ⟨heq, hall⟩ | ⟨t1, c, t2, hsplit, heq, hlt, hl1, hl2⟩
    · refine ⟨[], a, t, rfl, by rw [hmc]; exact heq, ?_, hall⟩
      intro x hx
      exact absurd hx (List.not_mem_nil x)
    · refine ⟨a :: t1, c, t2, by rw [List.cons_append, hsplit],
        by rw [hmc]; exact heq, ?_, hl2⟩
      intro x hx
      rcases List.mem_cons.mp hx with h2 | h2
      · rw [h2]; exact hlt
      · exact hl1 x h2

theorem majority_pred_of_ne_nil (texts : List PyStr)
    (h : texts.filterMap parse_grid ≠ []) :
    majority_pred texts =
      match mostCommon1 ((texts.filterMap parse_grid).map dumpsGrid) with
      | some bk => (jsonLoads bk).bind jtopToRows
      | none => none := by
  unfold majority_pred
  rcases hfm : texts.filterMap parse_grid with _ | ⟨a, t⟩
  · exact absurd hfm h
  · rfl

/-- Claim C5: for every list of sampled completion texts, when no sample
parses the aggregation yields no candidate, and otherwise it returns a
parsed grid whose canonical serialization is modal among the parsed
samples, with count ties broken in favour of the first-encountered
serialization: splitting the key sequence at the first occurrence of the
winning serialization, every key occurring before it has strictly
smaller multiplicity, and every key has multiplicity at most the
winner's. -/
theorem c5_majority_vote (texts : List PyStr) (parsed : List Grid) (keys : List PyStr)
    (hp : parsed = texts.filterMap parse_grid) (hk : keys = parsed.map dumpsGrid) :
    (parsed = [] → majority_pred texts = none) ∧
    (parsed ≠ [] → ∃ g p q, g ∈ parsed ∧ majority_pred texts = some g ∧
      keys = p ++ dumpsGrid g :: q ∧ dumpsGrid g ∉ p ∧
      (∀ x ∈ p, keys.count x < keys.count (dumpsGrid g)) ∧
      (∀ x ∈ keys, keys.count x ≤ keys.count (dumpsGrid g))) := by
  subst hk
  subst hp
  constructor
  · intro he
    unfold majority_pred
    rw [he]
  · intro hne
    have hkne : ((texts.filterMap parse_grid).map dumpsGrid) ≠ [] := by
      rcases hfm : texts.filterMap parse_grid with _ | ⟨a, t⟩
      · exact absurd hfm hne
      · simp
    obtain ⟨d1, c, d2, hd, hmc, hlt1, hle2⟩ :=
      mostCommon1_first_modal ((texts.filterMap parse_grid).map dumpsGrid)
        (dedupFirst_ne_nil _ hkne)
    have hd2 : dedupFirstAux ((texts.filterMap parse_grid).map dumpsGrid) [] =
        d1 ++ c :: d2 := hd
    have hck : c ∈ (texts.filterMap parse_grid).map dumpsGrid :=
      mem_dedupFirstAux_sub _ [] c (by
        rw [hd2]
        exact List.mem_append_right _ (List.mem_cons_self c d2))
    obtain ⟨g, hgmem, hgc⟩ := List.mem_map.mp hck
    obtain ⟨p, q, hpq, hcp⟩ := mem_first_split _ c hck
    refine ⟨g, p, q, hgmem, ?_, ?_, ?_, ?_, ?_⟩
    · rw [majority_pred_of_ne_nil texts hne]
      rw [hmc]
      dsimp only
      rw [← hgc]
      exact bestKey_pred g
    · rw [hgc]
      exact hpq
    · rw [hgc]
      exact hcp
    · rw [hgc]
      intro x hx
      have hxk : x ∈ (texts.filterMap parse_grid).map dumpsGrid := by
        rw [hpq]
        exact List.mem_append_left _ hx
      rcases mem_dedupFirstAux_complete _ [] x hxk with hxd | hxs
      · rw [hd2] at hxd
        rcases List.mem_append.mp hxd with hx1 | hx2
        · exact hlt1 x hx1
        · rcases List.mem_cons.mp hx2 with hxc | hx2t
          · exact absurd (by rw [← hxc]; exact hx) hcp
          · exact absurd hx (dedupFirstAux_order _ [] d1 c d2 hd2 x hx2t p q hpq hcp)
      · exact absurd hxs (List.not_mem_nil x)
    · rw [hgc]
      intro x hxk
      rcases mem_dedupFirstAux_complete _ [] x hxk with hxd | hxs
      · rw [hd2] at hxd
        rcases List.mem_append.mp hxd with hx1 | hx2
        · exact le_of_lt (hlt1 x hx1)
        · rcases List.mem_cons.mp hx2 with hxc | hx2t
          · rw [hxc]
          · exact hle2 x hx2t
      · exact absurd hxs (List.not_mem_nil x)

/-- Claim C5 witness: among the three samples `[[1]]`, `[[2]]`, `[[2]]`
the modal grid `[[2]]` is selected. -/
theorem c5_majority_vote_witness :
    majority_pred ["[[1]]".toList, "[[2]]".toList, "[[2]]".toList] = some [[2]] := by
  have H := c5_majority_vote ["[[1]]".toList, "[[2]]".toList, "[[2]]".toList]
    [[[1]], [[2]], [[2]]] ["[[1]]".toList, "[[2]]".toList, "[[2]]".toList]
    (by with_unfolding_all rfl) (by with_unfolding_all rfl)
  obtain ⟨g, p, q, hgmem, hmaj, hsplit, hnp, hltp, hle⟩ := H.2 (by simp)
  have hmem2 : "[[2]]".toList ∈
      (["[[1]]".toList, "[[2]]".toList, "[[2]]".toList] : List PyStr) := by decide
  have h2 := hle ("[[2]]".toList) hmem2
  rcases List.mem_cons.mp hgmem with h1 | hrest
  · exfalso
    have hdg1 : dumpsGrid [[1]] = "[[1]]".toList := by with_unfolding_all rfl
    rw [h1, hdg1] at h2
    exact absurd h2 (by decide)
  · rcases List.mem_cons.mp hrest with h1 | hrest2
    · rw [h1] at hmaj
      exact hmaj
    · rcases List.mem_cons.mp hrest2 with h1 | hnil
      · rw [h1] at hmaj
        exact hmaj
      · exact absurd hnil (List.not_mem_nil g)

end Arcft
